import Mathlib

/-!
# Verification of the alvys-sdk access-token provider and request client

This development shallowly embeds the runtime core of the `alvys-sdk`
TypeScript package: the access-token provider returned by
`createAlvysAccessTokenProvider` (credential caching, single-flight refresh,
fallback tokens, TTL computation) and the header-composition / delegation
logic of `createAlvysClient` (`buildHeaders`, `wrap`).

Conventions of the embedding:
* JavaScript `string | undefined` values are `Option String`; `undefined`
  is `none`, and the empty string is `some ""` (falsy but not nullish).
* `a ?? b` is `jsOrElse`; string truthiness (`if (x)`) is `truthyS`.
* Times (`Date.now()`, `expiresAt`) are integers of milliseconds.
* The asynchronous provider is modelled twice, at two granularities:
  a sequential per-call function `getTokenOnce` (one logical caller), and
  an event-loop step relation `Step` over `SysState` in which each `await`
  boundary of the source is an interleaving point (used for the
  concurrency claims).
-/

namespace Alvys

/-- `https://auth.alvys.com/oauth/token` (constant `AUTH_TOKEN_URL`). -/
def AUTH_TOKEN_URL : String := "https://auth.alvys.com/oauth/token"

/-- Constant `PUBLIC_API_AUDIENCE` from the source. -/
def PUBLIC_API_AUDIENCE : String := "https://api.alvys.com/public/"

/-- Constant `TOKEN_DEFAULT_EXPIRES_IN_SECONDS = 60 * 60`. -/
def TOKEN_DEFAULT_EXPIRES_IN_SECONDS : Int := 60 * 60

/-- Constant `TOKEN_EXPIRATION_BUFFER_MS = 60_000`. -/
def TOKEN_EXPIRATION_BUFFER_MS : Int := 60000

/-- JavaScript `a ?? b` on `string | undefined` values. -/
def jsOrElse (a b : Option String) : Option String :=
  match a with
  | some s => some s
  | none => b

/-- JavaScript truthiness of a `string | undefined` value:
only `undefined` and the empty string are falsy. -/
def truthyS : Option String → Bool
  | some s => s ≠ ""
  | none => false

/-- The cached credential (`TokenCacheEntry` in the source):
`{ token, expiresAt }`. -/
structure Credential where
  token : String
  expiresAt : Int
  deriving DecidableEq, Repr

/-- `cache && cache.expiresAt > Date.now()` — validity test used by
`getCachedToken`. -/
def cacheValid (cache : Option Credential) (now : Int) : Bool :=
  match cache with
  | some c => now < c.expiresAt
  | none => false

/-- The distinct failure modes thrown by the provider.  The source throws
`Error` with distinct messages; we keep the data the messages carry. -/
inductive TokenError where
  /-- "A fetch implementation is required to retrieve Alvys access tokens." -/
  | fetchMissing
  /-- "Missing Alvys client credentials." -/
  | missingCredentials
  /-- "Failed to retrieve Alvys access token (`status` `statusText`): `body`". -/
  | endpoint (status : Nat) (statusText : String) (body : String)
  /-- "The Alvys token endpoint did not return an access_token." -/
  | malformed
  deriving DecidableEq, Repr

/-- Outcome of one `fetch` of the token endpoint, as the code observes it:
either a 2xx response whose parsed JSON body has optional `access_token`
and `expires_in` fields, or a non-2xx response with a status, a status
text, and a body text (`none` when reading the body itself failed). -/
inductive NetResult where
  | success (accessToken : Option String) (expiresIn : Option Int)
  | httpError (status : Nat) (statusText : String) (bodyText : Option String)
  deriving DecidableEq, Repr

/-- `expires_in` selection: `typeof data.expires_in === 'number' &&
data.expires_in > 0 ? data.expires_in : TOKEN_DEFAULT_EXPIRES_IN_SECONDS`. -/
def expiresInSecondsOf : Option Int → Int
  | some e => if 0 < e then e else TOKEN_DEFAULT_EXPIRES_IN_SECONDS
  | none => TOKEN_DEFAULT_EXPIRES_IN_SECONDS

/-- `ttlMs = Math.max(5_000, expiresInSeconds * 1000 - expirationBufferMs)`. -/
def ttlMs (expiresIn : Option Int) (bufferMs : Int) : Int :=
  max 5000 (expiresInSecondsOf expiresIn * 1000 - bufferMs)

/-- Processing of a settled token-endpoint response, from the tail of
`requestToken`: non-2xx throws an endpoint error whose message carries the
status and the body text (`'<no body>'` when the body read failed); a 2xx
body without a truthy `access_token` throws the malformed error; otherwise
the cache is replaced by `{ token, expiresAt: Date.now() + ttlMs }` and the
token is returned.  Returns the call's result and the new cache. -/
def settleOutcome (net : NetResult) (now bufferMs : Int)
    (cache : Option Credential) : (Except TokenError String) × Option Credential :=
  match net with
  | .httpError st stx bt =>
      (.error (.endpoint st stx (bt.getD "<no body>")), cache)
  | .success none _ => (.error .malformed, cache)
  | .success (some t) e =>
      if t = "" then (.error .malformed, cache)
      else (.ok t, some ⟨t, now + ttlMs e bufferMs⟩)

/-- The JSON payload `requestToken` POSTs to the token endpoint. -/
structure TokenRequestPayload where
  client_id : String
  client_secret : String
  audience : String
  grant_type : String
  scope : Option String
  deriving DecidableEq, Repr

/-- `if (scope) payload.scope = scope` — the optional scope field. -/
def scopeField (scope : Option String) : Option String :=
  match scope with
  | some s => if s = "" then none else some s
  | none => none

/-- The configuration visible to one provider call, with every
value-or-factory field already resolved for this call (factories are
`async`, so each call re-invokes them; the `env*` fields model
`getEnv('ALVYS_*')`). -/
structure CallConfig where
  fetchAvailable : Bool
  fallbackFactory : Option String
  envToken : Option String
  clientIdFactory : Option String
  envClientId : Option String
  clientSecretFactory : Option String
  envClientSecret : Option String
  audience : String
  scope : Option String
  bufferMs : Int
  deriving DecidableEq, Repr

/-- `resolveFallbackToken = (await resolveValue(options.fallbackToken)) ?? getEnv('ALVYS_TOKEN')`. -/
def resolvedFallback (cfg : CallConfig) : Option String :=
  jsOrElse cfg.fallbackFactory cfg.envToken

/-- `resolveClientId = (await resolveValue(options.clientId)) ?? getEnv('ALVYS_CLIENT_ID')`. -/
def resolvedClientId (cfg : CallConfig) : Option String :=
  jsOrElse cfg.clientIdFactory cfg.envClientId

/-- `resolveClientSecret`, analogous to `resolvedClientId`. -/
def resolvedClientSecret (cfg : CallConfig) : Option String :=
  jsOrElse cfg.clientSecretFactory cfg.envClientSecret

instance : DecidableEq (Except TokenError String) := fun a b =>
  match a, b with
  | .ok x, .ok y => decidable_of_iff (x = y) (by simp)
  | .error x, .error y => decidable_of_iff (x = y) (by simp)
  | .ok _, .error _ => isFalse (fun h => Except.noConfusion h)
  | .error _, .ok _ => isFalse (fun h => Except.noConfusion h)

/-- Observable outcome of one provider call: the settled result, the cache
left behind, how many token-endpoint requests were issued, and the payload
of the issued request (if any). -/
structure CallOutcome where
  result : Except TokenError String
  cache' : Option Credential
  netCalls : Nat
  payload : Option TokenRequestPayload
  deriving DecidableEq, Repr

/-- `requestToken`: checks the fetch implementation, resolves client
credentials (`if (!clientId || !clientSecret) throw`), builds the
`client_credentials` payload, performs the single fetch and settles it via
`settleOutcome`. -/
def requestTokenF (cfg : CallConfig) (net : NetResult) (cache : Option Credential)
    (now : Int) : CallOutcome :=
  if cfg.fetchAvailable then
    match resolvedClientId cfg, resolvedClientSecret cfg with
    | some cid, some cs =>
        if cid = "" ∨ cs = "" then ⟨.error .missingCredentials, cache, 0, none⟩
        else
          let payload : TokenRequestPayload :=
            ⟨cid, cs, cfg.audience, "client_credentials", scopeField cfg.scope⟩
          let rc := settleOutcome net now cfg.bufferMs cache
          ⟨rc.1, rc.2, 1, some payload⟩
    | _, _ => ⟨.error .missingCredentials, cache, 0, none⟩
  else ⟨.error .fetchMissing, cache, 0, none⟩

/-- `getCachedToken()`: the cached token when a credential exists and
`cache.expiresAt > Date.now()`, else `undefined`. -/
def getCachedToken (cache : Option Credential) (now : Int) : Option String :=
  match cache with
  | some c => if now < c.expiresAt then some c.token else none
  | none => none

/-- The cache-then-refresh tail of the provider function: `const cached =
getCachedToken(); if (cached) return cached;` — a truthiness check on the
cached token, so an `undefined` or empty cached token falls through to
`requestToken()`. -/
def cacheOrRefresh (cfg : CallConfig) (net : NetResult) (cache : Option Credential)
    (now : Int) : CallOutcome :=
  match getCachedToken cache now with
  | some t => if t = "" then requestTokenF cfg net cache now else ⟨.ok t, cache, 0, none⟩
  | none => requestTokenF cfg net cache now

/-- One sequential call of the function returned by
`createAlvysAccessTokenProvider`: resolve the fallback token and return it
if truthy, else consult the cache, else refresh over the network.  (With a
single caller the in-flight promise is created and awaited within the same
call, so it does not appear here; the concurrent model below has it.) -/
def getTokenOnce (cfg : CallConfig) (net : NetResult) (cache : Option Credential)
    (now : Int) : CallOutcome :=
  match resolvedFallback cfg with
  | some s => if s = "" then cacheOrRefresh cfg net cache now else ⟨.ok s, cache, 0, none⟩
  | none => cacheOrRefresh cfg net cache now

/-! ## Header composition (`createAlvysClient`) -/

/-- A `Headers` collection: an association list whose keys are stored
lowercased (the Fetch `Headers` class is case-insensitive). -/
abbrev HeadersM := List (String × String)

/-- Header-name normalization (the Fetch spec lowercases names; header
names are ASCII). -/
def lowerString (s : String) : String := String.mk (s.data.map Char.toLower)

/-- `Headers.set(name, value)`: replaces the value of an existing entry
with the same (case-insensitive) name, else appends a new entry. -/
def hset (h : HeadersM) (k v : String) : HeadersM :=
  let k' := lowerString k
  if h.any (fun p => p.1 = k') then
    h.map (fun p => if p.1 = k' then (k', v) else p)
  else h ++ [(k', v)]

/-- `Headers.get(name)` up to the value: first entry with the
(case-insensitive) name. -/
def hlookup (h : HeadersM) (nm : String) : Option String :=
  (h.find? (fun p => p.1 = lowerString nm)).map (fun p => p.2)

/-- The `HeadersOptions` union accepted for default and per-request
headers: a plain object (`Record<string, value>`), an array of pairs, or a
`Headers` instance.  Object/array values may be `undefined`/`null`
(`none`), which the merge skips; other values are already stringified. -/
inductive HeaderInput where
  | hmap (entries : List (String × Option String))
  | harr (entries : List (String × Option String))
  | hobj (h : HeadersM)
  deriving DecidableEq, Repr

/-- One step of `mergeIntoHeaders`' iteration over object entries or array
pairs: `undefined`/`null` values are skipped, others `target.set`. -/
def mergeStep (acc : HeadersM) (p : String × Option String) : HeadersM :=
  match p.2 with
  | some v => hset acc p.1 v
  | none => acc

/-- `mergeIntoHeaders(target, source)`: no-op on a nullish source; a
`Headers` source is copied entry by entry via `set`; an array or object
source is folded with `mergeStep`. -/
def mergeIntoHeadersM (target : HeadersM) (source : Option HeaderInput) : HeadersM :=
  match source with
  | none => target
  | some (.hmap l) => l.foldl mergeStep target
  | some (.harr l) => l.foldl mergeStep target
  | some (.hobj h) => h.foldl (fun acc p => hset acc p.1 p.2) target

/-- `token.startsWith('Bearer ')`, spelled over the character sequence so
that it evaluates inside the kernel. -/
def startsWithM (s pre : String) : Bool :=
  s.data.take pre.data.length == pre.data

/-- The `Authorization` value set by `buildHeaders` for a truthy token:
`token.startsWith('Bearer ') ? token : 'Bearer ' + token`. -/
def authValue (t : String) : String :=
  if startsWithM t "Bearer " then t else "Bearer " ++ t

/-- The `Authorization` stage of `buildHeaders`: `if (token)
headers.set('Authorization', ...)` — a no-op on a falsy token. -/
def authApply (h : HeadersM) (token : Option String) : HeadersM :=
  match token with
  | some t => if t = "" then h else hset h "Authorization" (authValue t)
  | none => h

/-- `buildHeaders(requestHeaders)`: merge the resolved default headers
into a fresh `Headers`, set `Authorization` when the resolved access token
is truthy, merge the per-request headers, and return the resulting object
— or `undefined` when no header was ever set. -/
def buildHeadersF (defaults : Option HeaderInput) (token : Option String)
    (requestHeaders : Option HeaderInput) : Option HeadersM :=
  let h3 := mergeIntoHeadersM (authApply (mergeIntoHeadersM [] defaults) token) requestHeaders
  if h3.isEmpty then none else some h3

/-- Lookup through the optional result of `buildHeadersF`. -/
def hlookupO (h : Option HeadersM) (nm : String) : Option String :=
  match h with
  | some hs => hlookup hs nm
  | none => none

/-! ## The verb wrapper (`wrap`) -/

/-- The option bag passed to a wrapped verb: its `headers` field and its
remaining fields (opaque to the wrapper, modelled as key–value pairs). -/
structure CallOptions where
  headers : Option HeaderInput
  rest : List (String × String)
  deriving DecidableEq, Repr

/-- A composed header object is spread back into the option bag as a plain
`Record<string, string>`. -/
def headersAsInput (hs : HeadersM) : HeaderInput :=
  .hmap (hs.map (fun p => (p.1, some p.2)))

/-- What the underlying executor method receives from a wrapped call. -/
inductive ExecCall where
  /-- `fn(url)` — no options argument at all. -/
  | urlOnly
  /-- `fn(url, options)`. -/
  | withOptions (o : CallOptions)
  deriving DecidableEq, Repr

/-- The body of a wrapped verb after the URL-presence check: build the
composed headers from `options?.headers`; when they exist, delegate with
`{ ...(options ?? {}), headers }`; otherwise delegate with the original
arguments untouched (`fn(url)` when no options were passed). -/
def wrapCall (defaults : Option HeaderInput) (token : Option String)
    (opts : Option CallOptions) : ExecCall :=
  match buildHeadersF defaults token (opts.bind (fun o => o.headers)) with
  | some hs =>
      .withOptions ⟨some (headersAsInput hs), ((opts.map (fun o => o.rest)).getD [])⟩
  | none =>
      match opts with
      | none => .urlOnly
      | some o => .withOptions o

/-! ## Event-loop model of the provider (concurrent callers)

The provider returned by `createAlvysAccessTokenProvider` closes over two
mutable slots, `cache` and `inFlight`.  We model a fixed population of `n`
logical callers of the provider plus the refresh tasks ("flights") they
spawn, interleaved at the `await` boundaries of the source.  Each step of
`Step` is one synchronously-executed stretch of source code between two
suspension points, so `cache`/`inFlight` reads and writes inside one step
are atomic, exactly as in a single-threaded event loop.  Time
(`Date.now()`) is held constant across an episode: the callers are
concurrent, i.e. interleaved within one turn of the event loop. -/

/-- The fixed environment of one episode: the current time, the resolved
configuration (identical for each resolution, as factories are quantified
per episode), the initial cache, and the token endpoint's behaviour. -/
structure Scenario where
  now : Int
  bufferMs : Int
  /-- Result of `resolveFallbackToken()` (factory `??` env). -/
  fallbackRes : Option String
  fetchAvailable : Bool
  /-- Result of `resolveClientId()` (factory `??` env). -/
  clientId : Option String
  /-- Result of `resolveClientSecret()` (factory `??` env). -/
  clientSecret : Option String
  net : NetResult
  cache0 : Option Credential

/-- Where one refresh task stands.  `resolvingConfig` is `requestToken`
between its (synchronous) start and the resolution of the client
credentials; `requesting` means the `fetch` of the token endpoint is
outstanding; `parsing` means the response has arrived and its body is
being read; `settling r` means `requestToken`'s promise has settled with
`r` (the cache write, on success, happened at that settlement) but the
`finally` reaction has not yet run; `settled r` means the `finally` has
cleared `inFlight` and waiters may resume. -/
inductive FlightPhase where
  | resolvingConfig
  | requesting
  | parsing
  | settling (r : Except TokenError String)
  | settled (r : Except TokenError String)
  deriving DecidableEq, Repr

/-- Phases in which `requestToken`'s promise has settled. -/
def FlightPhase.isSettled : FlightPhase → Bool
  | .settled _ => true
  | _ => false

/-- Control state of one logical `getToken()` caller. -/
inductive CallerPC where
  /-- Invoked; suspended at `await resolveFallbackToken()`. -/
  | start
  /-- Suspended at `await inFlight` on flight `j`. -/
  | awaiting (j : Nat)
  /-- The call settled with `r`. -/
  | done (r : Except TokenError String)
  deriving DecidableEq, Repr

/-- Global state: each caller's control point, the two mutable slots of
the closure, the log of spawned flights (`inFlight` indexes into it), and
the count of token-endpoint requests issued so far. -/
structure SysState (n : Nat) where
  callers : Fin n → CallerPC
  cache : Option Credential
  flights : List FlightPhase
  inFlight : Option Nat
  reqCount : Nat

/-- Initial state: every caller freshly invoked, no flight, no request. -/
def initState (n : Nat) (sc : Scenario) : SysState n :=
  ⟨fun _ => .start, sc.cache0, [], none, 0⟩

/-- One interleaving step of the event loop. -/
inductive Step (sc : Scenario) {n : Nat} : SysState n → SysState n → Prop where
  /-- A caller resumes from the fallback await with a truthy fallback and
  returns it. -/
  | fallbackHit (s : SysState n) (i : Fin n) (t : String)
      (hpc : s.callers i = .start) (hf : sc.fallbackRes = some t) (ht : t ≠ "") :
      Step sc s { s with callers := Function.update s.callers i (.done (.ok t)) }
  /-- A caller resumes with a falsy fallback and hits a valid cache whose
  token is truthy (`if (cached) return cached`). -/
  | cacheHit (s : SysState n) (i : Fin n) (c : Credential)
      (hpc : s.callers i = .start) (hf : truthyS sc.fallbackRes = false)
      (hc : s.cache = some c) (hv : sc.now < c.expiresAt) (ht : c.token ≠ "") :
      Step sc s { s with callers := Function.update s.callers i (.done (.ok c.token)) }
  /-- A caller resumes, misses fallback and the cached-token truthiness
  check, and joins the existing in-flight refresh. -/
  | joinFlight (s : SysState n) (i : Fin n) (j : Nat)
      (hpc : s.callers i = .start) (hf : truthyS sc.fallbackRes = false)
      (hc : truthyS (getCachedToken s.cache sc.now) = false) (hj : s.inFlight = some j) :
      Step sc s { s with callers := Function.update s.callers i (.awaiting j) }
  /-- A caller resumes, misses fallback and the cached-token truthiness
  check, finds no in-flight refresh, and starts one: `inFlight =
  requestToken().finally(...)` is assigned synchronously, then the caller
  awaits it. -/
  | newFlight (s : SysState n) (i : Fin n)
      (hpc : s.callers i = .start) (hf : truthyS sc.fallbackRes = false)
      (hc : truthyS (getCachedToken s.cache sc.now) = false) (hn : s.inFlight = none) :
      Step sc s { s with
        callers := Function.update s.callers i (.awaiting s.flights.length),
        flights := s.flights ++ [.resolvingConfig],
        inFlight := some s.flights.length }
  /-- `requestToken` rejects synchronously: no fetch implementation. -/
  | flightNoFetch (s : SysState n) (j : Nat)
      (hj : s.flights[j]? = some .resolvingConfig) (hf : sc.fetchAvailable = false) :
      Step sc s { s with flights := s.flights.set j (.settling (.error .fetchMissing)) }
  /-- The credential resolution resumes and a credential is falsy:
  `requestToken` rejects without touching the network. -/
  | flightNoCreds (s : SysState n) (j : Nat)
      (hj : s.flights[j]? = some .resolvingConfig) (hf : sc.fetchAvailable = true)
      (hcred : truthyS sc.clientId = false ∨ truthyS sc.clientSecret = false) :
      Step sc s { s with flights := s.flights.set j (.settling (.error .missingCredentials)) }
  /-- The credential resolution resumes with truthy credentials and the
  `fetch` of the token endpoint is issued. -/
  | flightIssue (s : SysState n) (j : Nat)
      (hj : s.flights[j]? = some .resolvingConfig) (hf : sc.fetchAvailable = true)
      (hid : truthyS sc.clientId = true) (hsec : truthyS sc.clientSecret = true) :
      Step sc s { s with flights := s.flights.set j .requesting,
                         reqCount := s.reqCount + 1 }
  /-- The token endpoint's response arrives; the body read begins. -/
  | flightRespond (s : SysState n) (j : Nat)
      (hj : s.flights[j]? = some .requesting) :
      Step sc s { s with flights := s.flights.set j .parsing }
  /-- The body read completes and `requestToken` settles: on a 2xx body
  with a truthy `access_token` the cache is replaced and the token
  returned, otherwise the cache is untouched and an error thrown. -/
  | flightParse (s : SysState n) (j : Nat)
      (hj : s.flights[j]? = some .parsing) :
      Step sc s { s with
        flights := s.flights.set j (.settling (settleOutcome sc.net sc.now sc.bufferMs s.cache).1),
        cache := (settleOutcome sc.net sc.now sc.bufferMs s.cache).2 }
  /-- The `finally` reaction runs: `inFlight = undefined`, on success and
  failure alike; the flight's promise becomes settled for its waiters. -/
  | flightSettle (s : SysState n) (j : Nat) (r : Except TokenError String)
      (hj : s.flights[j]? = some (.settling r)) :
      Step sc s { s with flights := s.flights.set j (.settled r), inFlight := none }
  /-- A caller awaiting a settled flight resumes with its result. -/
  | waiterResume (s : SysState n) (i : Fin n) (j : Nat) (r : Except TokenError String)
      (hpc : s.callers i = .awaiting j) (hj : s.flights[j]? = some (.settled r)) :
      Step sc s { s with callers := Function.update s.callers i (.done r) }

/-- States reachable from the initial state by interleaved execution. -/
def Reachable (n : Nat) (sc : Scenario) (s : SysState n) : Prop :=
  Relation.ReflTransGen (Step sc) (initState n sc) s

/-- Number of token-endpoint requests outstanding: flights whose `fetch`
has not yet produced a response. -/
def countRequesting (l : List FlightPhase) : Nat :=
  (l.filter (fun ph => ph = .requesting)).length

/-- Every caller's `getToken()` promise has settled. -/
def allDone {n : Nat} (s : SysState n) : Prop :=
  ∀ i, ∃ r, s.callers i = .done r

/-- The central slot invariant: `inFlight` points into the flight log, and
it points at a flight exactly while that flight's `requestToken` promise
has not settled (the `finally` clears it at settlement, on success and
failure alike, and only a fresh unsettled flight is ever assigned). -/
def INV0 {n : Nat} (s : SysState n) : Prop :=
  (∀ j, s.inFlight = some j → ∃ ph, s.flights[j]? = some ph) ∧
  (∀ j ph, s.flights[j]? = some ph → (s.inFlight = some j ↔ ph.isSettled = false))

theorem inv0_init (n : Nat) (sc : Scenario) : INV0 (initState n sc) := by
  constructor
  · intro j h; exact Option.noConfusion h
  · intro j ph h; exact Option.noConfusion h

/-- Auxiliary preservation: replacing a flight's phase by one with the
same settledness preserves the pointing invariant. -/
theorem inv0_aux_set {fl : List FlightPhase} {inf : Option Nat} {j0 : Nat}
    {ph0 ph1 : FlightPhase}
    (h : ∀ j ph, fl[j]? = some ph → (inf = some j ↔ ph.isSettled = false))
    (hj0 : fl[j0]? = some ph0) (hsame : ph0.isSettled = ph1.isSettled) :
    ∀ j ph, (fl.set j0 ph1)[j]? = some ph → (inf = some j ↔ ph.isSettled = false) := by
  intro j ph hj
  by_cases heq : j0 = j
  · subst heq
    obtain ⟨hlt, -⟩ := List.getElem?_eq_some.mp hj0
    rw [List.getElem?_set_eq_of_lt _ hlt] at hj
    injection hj with hj
    subst hj
    rw [← hsame]
    exact h j0 ph0 hj0
  · rw [List.getElem?_set_ne heq] at hj
    exact h j ph hj

/-- Auxiliary preservation: replacing a flight's phase preserves the
domain component of the invariant. -/
theorem inv0_dom_set {fl : List FlightPhase} {inf : Option Nat} {j0 : Nat}
    {ph1 : FlightPhase}
    (hdom : ∀ j, inf = some j → ∃ ph, fl[j]? = some ph) :
    ∀ j, inf = some j → ∃ ph, (fl.set j0 ph1)[j]? = some ph := by
  intro j hj
  obtain ⟨ph, hph⟩ := hdom j hj
  by_cases heq : j0 = j
  · subst heq
    obtain ⟨hlt, -⟩ := List.getElem?_eq_some.mp hph
    exact ⟨ph1, List.getElem?_set_eq_of_lt _ hlt⟩
  · exact ⟨ph, by rw [List.getElem?_set_ne heq]; exact hph⟩

theorem inv0_step {n : Nat} {sc : Scenario} {s s' : SysState n}
    (h : INV0 s) (hs : Step sc s s') : INV0 s' := by
  obtain ⟨hdom, hpt⟩ := h
  cases hs with
  | fallbackHit i t hpc hf ht => exact ⟨hdom, hpt⟩
  | cacheHit i c hpc hf hc hv ht => exact ⟨hdom, hpt⟩
  | joinFlight i j hpc hf hc hj => exact ⟨hdom, hpt⟩
  | waiterResume i j r hpc hj => exact ⟨hdom, hpt⟩
  | newFlight i hpc hf hc hn =>
      constructor
      · intro j hj
        injection hj with hj
        subst hj
        exact ⟨.resolvingConfig, List.getElem?_concat_length _ _⟩
      · intro j ph hj
        by_cases hlt : j < s.flights.length
        · rw [List.getElem?_append_left hlt] at hj
          have hiff := hpt j ph hj
          rw [hn] at hiff
          have hst : ph.isSettled = true := by
            rcases Bool.eq_false_or_eq_true ph.isSettled with hb | hb
            · exact hb
            · exact absurd (hiff.mpr hb) (fun hx => Option.noConfusion hx)
          constructor
          · intro hx
            injection hx with hx
            omega
          · intro hx
            rw [hst] at hx
            exact Bool.noConfusion hx
        · by_cases heq : j = s.flights.length
          · subst heq
            rw [List.getElem?_concat_length] at hj
            injection hj with hj
            subst hj
            simp [FlightPhase.isSettled]
          · have hlen : (s.flights ++ [FlightPhase.resolvingConfig]).length ≤ j := by
              simp only [List.length_append, List.length_cons, List.length_nil]
              omega
            rw [List.getElem?_eq_none hlen] at hj
            exact Option.noConfusion hj
  | flightNoFetch j0 hj0 hf => exact ⟨inv0_dom_set hdom, inv0_aux_set hpt hj0 rfl⟩
  | flightNoCreds j0 hj0 hf hcred => exact ⟨inv0_dom_set hdom, inv0_aux_set hpt hj0 rfl⟩
  | flightIssue j0 hj0 hf hid hsec => exact ⟨inv0_dom_set hdom, inv0_aux_set hpt hj0 rfl⟩
  | flightRespond j0 hj0 => exact ⟨inv0_dom_set hdom, inv0_aux_set hpt hj0 rfl⟩
  | flightParse j0 hj0 => exact ⟨inv0_dom_set hdom, inv0_aux_set hpt hj0 rfl⟩
  | flightSettle j0 r hj0 =>
      constructor
      · intro j hj
        exact Option.noConfusion hj
      · intro j ph hj
        constructor
        · intro hx
          exact Option.noConfusion hx
        · intro hx
          exfalso
          by_cases heq : j0 = j
          · subst heq
            obtain ⟨hlt, -⟩ := List.getElem?_eq_some.mp hj0
            rw [List.getElem?_set_eq_of_lt _ hlt] at hj
            injection hj with hj
            subst hj
            simp [FlightPhase.isSettled] at hx
          · rw [List.getElem?_set_ne heq] at hj
            have h1 := (hpt j0 _ hj0).mpr rfl
            have h2 := (hpt j ph hj).mpr hx
            rw [h1] at h2
            injection h2 with h2
            exact heq h2

/-- `INV0` holds in every reachable state, for every scenario. -/
theorem inv0_reachable {n : Nat} {sc : Scenario} {s : SysState n}
    (hr : Reachable n sc s) : INV0 s := by
  induction hr with
  | refl => exact inv0_init n sc
  | tail _ hstep ih => exact inv0_step ih hstep

/-- The TTL never drops below its 5-second floor, hence is positive. -/
theorem ttlMs_ge (e : Option Int) (b : Int) : 5000 ≤ ttlMs e b :=
  le_max_left _ _

theorem ttlMs_pos (e : Option Int) (b : Int) : 0 < ttlMs e b :=
  lt_of_lt_of_le (by norm_num) (ttlMs_ge e b)

/-- The hypotheses of the single-flight claim: every concurrent call is made
while no fallback token resolves and no cached credential is valid, the
provider is configured (fetch and credentials present), and the token
endpoint answers 2xx with token `tok` and optional `expires_in` `e`. -/
structure SingleFlightScenario (sc : Scenario) (tok : String) (e : Option Int) : Prop where
  fallbackNone : truthyS sc.fallbackRes = false
  cacheInvalid : cacheValid sc.cache0 sc.now = false
  fetchOk : sc.fetchAvailable = true
  idOk : truthyS sc.clientId = true
  secretOk : truthyS sc.clientSecret = true
  netOk : sc.net = .success (some tok) e
  tokOk : tok ≠ ""

/-- Phases at or past settlement of `requestToken` (cache already written
in a successful episode). -/
def isLate : FlightPhase → Bool
  | .settling _ => true
  | .settled _ => true
  | _ => false

/-- What a caller's control point may be during a single-flight episode:
not yet resumed, waiting on the unique flight, or — once the flight has
written the cache — done with the episode's token. -/
def callerOK (tok : String) (late : Bool) (pc : CallerPC) : Prop :=
  pc = .start ∨ pc = .awaiting 0 ∨ (late = true ∧ pc = .done (.ok tok))

/-- Cache contents and request count as a function of the unique flight's
phase during a single-flight episode. -/
def phaseOK (sc : Scenario) (tok : String) (e : Option Int)
    (cache : Option Credential) (req : Nat) : FlightPhase → Prop
  | .resolvingConfig => cache = sc.cache0 ∧ req = 0
  | .requesting => cache = sc.cache0 ∧ req = 1
  | .parsing => cache = sc.cache0 ∧ req = 1
  | .settling r => r = .ok tok ∧ cache = some ⟨tok, sc.now + ttlMs e sc.bufferMs⟩ ∧ req = 1
  | .settled r => r = .ok tok ∧ cache = some ⟨tok, sc.now + ttlMs e sc.bufferMs⟩ ∧ req = 1

/-- The inductive episode invariant over the raw state components. -/
def EINVcore (sc : Scenario) (tok : String) (e : Option Int) {n : Nat}
    (callers : Fin n → CallerPC) (cache : Option Credential) (req : Nat) :
    List FlightPhase → Prop
  | [] => cache = sc.cache0 ∧ req = 0 ∧ ∀ i, callers i = .start
  | [ph] => phaseOK sc tok e cache req ph ∧ ∀ i, callerOK tok (isLate ph) (callers i)
  | _ :: _ :: _ => False

/-- The single-flight episode invariant: at most one flight ever exists,
its phase determines cache and request count, and every caller is before
the flight, on it, or done with its token. -/
def EINV (sc : Scenario) (tok : String) (e : Option Int) {n : Nat} (s : SysState n) : Prop :=
  EINVcore sc tok e s.callers s.cache s.reqCount s.flights

theorem callerOK_late {tok : String} {b : Bool} {pc : CallerPC}
    (h : callerOK tok b pc) : callerOK tok true pc := by
  rcases h with h | h | ⟨-, h⟩
  · exact Or.inl h
  · exact Or.inr (Or.inl h)
  · exact Or.inr (Or.inr ⟨rfl, h⟩)

theorem callerOK_update {n : Nat} {tok : String} {late : Bool}
    {callers : Fin n → CallerPC} {i : Fin n} {pc : CallerPC}
    (hall : ∀ i', callerOK tok late (callers i')) (hnew : callerOK tok late pc) :
    ∀ i', callerOK tok late (Function.update callers i pc i') := by
  intro i'
  rw [Function.update_apply]
  by_cases h : i' = i
  · rw [if_pos h]; exact hnew
  · rw [if_neg h]; exact hall i'

theorem einv_init (n : Nat) (sc : Scenario) (tok : String) (e : Option Int) :
    EINV sc tok e (initState n sc) :=
  ⟨rfl, rfl, fun _ => rfl⟩

theorem einv_step {n : Nat} {sc : Scenario} {tok : String} {e : Option Int}
    (hsc : SingleFlightScenario sc tok e) {s s' : SysState n}
    (h0 : INV0 s) (he : EINV sc tok e s) (hs : Step sc s s') : EINV sc tok e s' := by
  obtain ⟨hdom, hpt⟩ := h0
  unfold EINV at he ⊢
  cases hs with
  | fallbackHit i t hpc hf ht =>
      exact absurd hsc.fallbackNone (by rw [hf]; simp [truthyS, ht])
  | cacheHit i c hpc hf hc hv ht =>
      rcases hfl : s.flights with - | ⟨ph, - | ⟨ph2, rest⟩⟩
      all_goals rw [hfl] at he
      all_goals dsimp only
      all_goals simp only [EINVcore] at he ⊢
      · obtain ⟨hc0, -, -⟩ := he
        exfalso
        have hcv := hsc.cacheInvalid
        rw [← hc0, hc] at hcv
        simp [cacheValid] at hcv
        omega
      · obtain ⟨hph, hcall⟩ := he
        cases ph with
        | settling r =>
            obtain ⟨hr, hcache, hreq⟩ := hph
            rw [hc] at hcache
            injection hcache with hcache
            subst hcache
            refine ⟨⟨hr, by rw [hc], hreq⟩, ?_⟩
            refine callerOK_update hcall ?_
            exact Or.inr (Or.inr ⟨rfl, rfl⟩)
        | settled r =>
            obtain ⟨hr, hcache, hreq⟩ := hph
            rw [hc] at hcache
            injection hcache with hcache
            subst hcache
            refine ⟨⟨hr, by rw [hc], hreq⟩, ?_⟩
            refine callerOK_update hcall ?_
            exact Or.inr (Or.inr ⟨rfl, rfl⟩)
        | resolvingConfig =>
            obtain ⟨hc0, -⟩ := hph
            exfalso
            have hcv := hsc.cacheInvalid
            rw [← hc0, hc] at hcv
            simp [cacheValid] at hcv
            omega
        | requesting =>
            obtain ⟨hc0, -⟩ := hph
            exfalso
            have hcv := hsc.cacheInvalid
            rw [← hc0, hc] at hcv
            simp [cacheValid] at hcv
            omega
        | parsing =>
            obtain ⟨hc0, -⟩ := hph
            exfalso
            have hcv := hsc.cacheInvalid
            rw [← hc0, hc] at hcv
            simp [cacheValid] at hcv
            omega
  | joinFlight i j hpc hf hc hj =>
      obtain ⟨ph', hph'⟩ := hdom j hj
      rcases hfl : s.flights with - | ⟨ph, - | ⟨ph2, rest⟩⟩
      all_goals rw [hfl] at he hph'
      all_goals dsimp only
      all_goals simp only [EINVcore] at he ⊢
      · exact absurd hph' (by simp)
      · obtain ⟨hph, hcall⟩ := he
        cases j with
        | zero => exact ⟨hph, callerOK_update hcall (Or.inr (Or.inl rfl))⟩
        | succ m => exact absurd hph' (by simp)
  | newFlight i hpc hf hc hn =>
      rcases hfl : s.flights with - | ⟨ph, - | ⟨ph2, rest⟩⟩
      all_goals rw [hfl] at he
      all_goals dsimp only
      all_goals simp only [EINVcore, List.nil_append, List.length_nil] at he ⊢
      · obtain ⟨hc0, hr0, hcall⟩ := he
        refine ⟨⟨hc0, hr0⟩, ?_⟩
        refine callerOK_update (fun i' => Or.inl (hcall i')) (Or.inr (Or.inl rfl))
      · exfalso
        have hiff := hpt 0 ph (by rw [hfl]; rfl)
        rw [hn] at hiff
        have hst : ph.isSettled = true := by
          rcases Bool.eq_false_or_eq_true ph.isSettled with hb | hb
          · exact hb
          · exact absurd (hiff.mpr hb) (fun hx => Option.noConfusion hx)
        cases ph with
        | settled r =>
            obtain ⟨-, hcache, -⟩ := he.1
            rw [hcache] at hc
            have hlt : sc.now < sc.now + ttlMs e sc.bufferMs := by
              have := ttlMs_pos e sc.bufferMs
              omega
            simp [getCachedToken, truthyS, hlt] at hc
            exact hsc.tokOk hc
        | settling r => exact Bool.noConfusion hst
        | resolvingConfig => exact Bool.noConfusion hst
        | requesting => exact Bool.noConfusion hst
        | parsing => exact Bool.noConfusion hst
  | flightNoFetch j0 hj0 hf => exact absurd hsc.fetchOk (by rw [hf]; simp)
  | flightNoCreds j0 hj0 hf hcred =>
      rcases hcred with hcred | hcred
      · exact absurd hsc.idOk (by rw [hcred]; simp)
      · exact absurd hsc.secretOk (by rw [hcred]; simp)
  | flightIssue j0 hj0 hf hid hsec =>
      rcases hfl : s.flights with - | ⟨ph, - | ⟨ph2, rest⟩⟩
      all_goals rw [hfl] at he hj0
      all_goals dsimp only
      all_goals simp only [EINVcore] at he ⊢
      · exact absurd hj0 (by simp)
      · obtain ⟨hph, hcall⟩ := he
        cases j0 with
        | zero =>
            simp only [List.getElem?_cons_zero] at hj0
            injection hj0 with hj0
            subst hj0
            obtain ⟨hc0, hr0⟩ := hph
            simp only [List.set_cons_zero, EINVcore]
            exact ⟨⟨hc0, by omega⟩, hcall⟩
        | succ m => exact absurd hj0 (by simp)
  | flightRespond j0 hj0 =>
      rcases hfl : s.flights with - | ⟨ph, - | ⟨ph2, rest⟩⟩
      all_goals rw [hfl] at he hj0
      all_goals dsimp only
      all_goals simp only [EINVcore] at he ⊢
      · exact absurd hj0 (by simp)
      · obtain ⟨hph, hcall⟩ := he
        cases j0 with
        | zero =>
            simp only [List.getElem?_cons_zero] at hj0
            injection hj0 with hj0
            subst hj0
            obtain ⟨hc0, hr1⟩ := hph
            simp only [List.set_cons_zero, EINVcore]
            exact ⟨⟨hc0, hr1⟩, hcall⟩
        | succ m => exact absurd hj0 (by simp)
  | flightParse j0 hj0 =>
      rcases hfl : s.flights with - | ⟨ph, - | ⟨ph2, rest⟩⟩
      all_goals rw [hfl] at he hj0
      all_goals dsimp only
      all_goals simp only [EINVcore] at he ⊢
      · exact absurd hj0 (by simp)
      · obtain ⟨hph, hcall⟩ := he
        cases j0 with
        | zero =>
            simp only [List.getElem?_cons_zero] at hj0
            injection hj0 with hj0
            subst hj0
            obtain ⟨hc0, hr1⟩ := hph
            have hso : settleOutcome sc.net sc.now sc.bufferMs s.cache =
                (.ok tok, some ⟨tok, sc.now + ttlMs e sc.bufferMs⟩) := by
              rw [hsc.netOk]
              simp [settleOutcome, hsc.tokOk]
            rw [hso]
            simp only [List.set_cons_zero, EINVcore]
            exact ⟨⟨rfl, rfl, hr1⟩, fun i => callerOK_late (hcall i)⟩
        | succ m => exact absurd hj0 (by simp)
  | flightSettle j0 r hj0 =>
      rcases hfl : s.flights with - | ⟨ph, - | ⟨ph2, rest⟩⟩
      all_goals rw [hfl] at he hj0
      all_goals dsimp only
      all_goals simp only [EINVcore] at he ⊢
      · exact absurd hj0 (by simp)
      · obtain ⟨hph, hcall⟩ := he
        cases j0 with
        | zero =>
            simp only [List.getElem?_cons_zero] at hj0
            injection hj0 with hj0
            subst hj0
            obtain ⟨hr, hcache, hr1⟩ := hph
            simp only [List.set_cons_zero, EINVcore]
            exact ⟨⟨hr, hcache, hr1⟩, hcall⟩
        | succ m => exact absurd hj0 (by simp)
  | waiterResume i j r hpc hj =>
      rcases hfl : s.flights with - | ⟨ph, - | ⟨ph2, rest⟩⟩
      all_goals rw [hfl] at he hj
      all_goals dsimp only
      all_goals simp only [EINVcore] at he ⊢
      · exact absurd hj (by simp)
      · obtain ⟨hph, hcall⟩ := he
        cases j with
        | zero =>
            simp only [List.getElem?_cons_zero] at hj
            injection hj with hj
            subst hj
            obtain ⟨hr, hcache, hr1⟩ := hph
            refine ⟨⟨hr, hcache, hr1⟩, ?_⟩
            refine callerOK_update hcall ?_
            rw [hr]
            exact Or.inr (Or.inr ⟨rfl, rfl⟩)
        | succ m => exact absurd hj (by simp)

/-- Both invariants hold in every reachable state of a single-flight
episode. -/
theorem ginv_reachable {n : Nat} {sc : Scenario} {tok : String} {e : Option Int}
    (hsc : SingleFlightScenario sc tok e) {s : SysState n}
    (hr : Reachable n sc s) : INV0 s ∧ EINV sc tok e s := by
  induction hr with
  | refl => exact ⟨inv0_init n sc, einv_init n sc tok e⟩
  | tail _ hstep ih => exact ⟨inv0_step ih.1 hstep, einv_step hsc ih.1 ih.2 hstep⟩

/-- C1.  Single-flight refresh: in any interleaving of `n ≥ 1` concurrent
invocations made while no fallback token resolves and no cached credential
is valid (token endpoint answering with token `tok`), every reachable
state has at most one token-endpoint request outstanding, never more than
one request issued in total, and when all invocations have settled exactly
one request was issued and every invocation resolved to `tok`. -/
theorem single_flight_refresh (n : Nat) (sc : Scenario) (tok : String) (e : Option Int)
    (hsc : SingleFlightScenario sc tok e) (s : SysState n) (hr : Reachable n sc s) :
    countRequesting s.flights ≤ 1 ∧ s.reqCount ≤ 1 ∧
      (1 ≤ n → allDone s → s.reqCount = 1 ∧ ∀ i, s.callers i = .done (.ok tok)) := by
  obtain ⟨-, he⟩ := ginv_reachable hsc hr
  unfold EINV at he
  rcases hfl : s.flights with - | ⟨ph, - | ⟨ph2, rest⟩⟩
  · rw [hfl] at he
    simp only [EINVcore] at he
    obtain ⟨-, hr0, hcall⟩ := he
    refine ⟨?_, ?_, ?_⟩
    · simp [countRequesting]
    · omega
    · intro hn hdone
      exfalso
      obtain ⟨r0, hr0'⟩ := hdone ⟨0, hn⟩
      rw [hcall ⟨0, hn⟩] at hr0'
      exact CallerPC.noConfusion hr0'
  · rw [hfl] at he
    simp only [EINVcore] at he
    obtain ⟨hph, hcall⟩ := he
    refine ⟨?_, ?_, ?_⟩
    · exact le_trans (List.length_filter_le _ _) (by simp)
    · cases ph with
      | resolvingConfig => have := hph.2; omega
      | requesting => have := hph.2; omega
      | parsing => have := hph.2; omega
      | settling r => have := hph.2.2; omega
      | settled r => have := hph.2.2; omega
    · intro hn hdone
      obtain ⟨r0, hr0'⟩ := hdone ⟨0, hn⟩
      rcases hcall ⟨0, hn⟩ with h0 | h0 | ⟨hlate, h0⟩
      · rw [h0] at hr0'; exact absurd hr0' (by simp)
      · rw [h0] at hr0'; exact absurd hr0' (by simp)
      · constructor
        · cases ph with
          | settling r => exact hph.2.2
          | settled r => exact hph.2.2
          | resolvingConfig => exact absurd hlate (by simp [isLate])
          | requesting => exact absurd hlate (by simp [isLate])
          | parsing => exact absurd hlate (by simp [isLate])
        · intro i
          obtain ⟨ri, hri⟩ := hdone i
          rcases hcall i with hi | hi | ⟨-, hi⟩
          · rw [hi] at hri; exact absurd hri (by simp)
          · rw [hi] at hri; exact absurd hri (by simp)
          · exact hi
  · rw [hfl] at he
    simp only [EINVcore] at he

/-- A concrete single-flight episode: two callers, empty cache, no
fallback, token endpoint answering `"tok"` with `expires_in = 3600`. -/
def sfScenario : Scenario :=
  { now := 0, bufferMs := 60000, fallbackRes := none, fetchAvailable := true,
    clientId := some "id", clientSecret := some "secret",
    net := .success (some "tok") (some 3600), cache0 := none }

/-- The state of the concrete episode after both callers joined one flight,
the flight settled, and both callers resumed. -/
def sfFinal : SysState 2 :=
  { callers := Function.update (Function.update (Function.update (Function.update
      (fun _ => CallerPC.start) 0 (.awaiting 0)) 1 (.awaiting 0))
      0 (.done (.ok "tok"))) 1 (.done (.ok "tok")),
    cache := some ⟨"tok", 0 + ttlMs (some 3600) 60000⟩,
    flights := [.settled (.ok "tok")], inFlight := none, reqCount := 1 }

theorem sfFinal_reachable : Reachable 2 sfScenario sfFinal := by
  have h0 : Reachable 2 sfScenario (initState 2 sfScenario) := Relation.ReflTransGen.refl
  have h1 := Relation.ReflTransGen.tail h0
    (Step.newFlight (initState 2 sfScenario) 0 rfl rfl rfl rfl)
  have h2 := Relation.ReflTransGen.tail h1 (Step.joinFlight _ 1 0 rfl rfl rfl rfl)
  have h3 := Relation.ReflTransGen.tail h2 (Step.flightIssue _ 0 rfl rfl (by decide) (by decide))
  have h4 := Relation.ReflTransGen.tail h3 (Step.flightRespond _ 0 rfl)
  have h5 := Relation.ReflTransGen.tail h4 (Step.flightParse _ 0 rfl)
  have h6 := Relation.ReflTransGen.tail h5 (Step.flightSettle _ 0 _ rfl)
  have h7 := Relation.ReflTransGen.tail h6 (Step.waiterResume _ 0 0 _ rfl rfl)
  have h8 := Relation.ReflTransGen.tail h7 (Step.waiterResume _ 1 0 _ rfl rfl)
  exact h8

/-- Witness for C1 at the concrete two-caller episode. -/
theorem single_flight_refresh_witness :
    allDone sfFinal ∧ sfFinal.reqCount = 1 ∧
      (∀ i, sfFinal.callers i = .done (.ok "tok")) := by
  have hdone : allDone sfFinal := fun i => ⟨.ok "tok", by fin_cases i <;> rfl⟩
  have h := single_flight_refresh 2 sfScenario "tok" (some 3600)
    ⟨rfl, rfl, rfl, by decide, by decide, rfl, by decide⟩ sfFinal sfFinal_reachable
  exact ⟨hdone, (h.2.2 (by norm_num) hdone).1, (h.2.2 (by norm_num) hdone).2⟩

/-! ## Functional lemmas about a single provider call -/

theorem getTokenOnce_no_fallback {cfg : CallConfig} (net : NetResult)
    (cache : Option Credential) (now : Int)
    (h : truthyS (resolvedFallback cfg) = false) :
    getTokenOnce cfg net cache now = cacheOrRefresh cfg net cache now := by
  unfold getTokenOnce
  cases hf : resolvedFallback cfg with
  | none => rfl
  | some s =>
      rw [hf] at h
      simp only [truthyS, ne_eq, decide_not, Bool.not_eq_false', decide_eq_true_eq] at h
      simp [h]

theorem cacheOrRefresh_miss {cache : Option Credential} {now : Int}
    (cfg : CallConfig) (net : NetResult)
    (hc : cacheValid cache now = false) :
    cacheOrRefresh cfg net cache now = requestTokenF cfg net cache now := by
  cases cache with
  | none => rfl
  | some c =>
      simp only [cacheValid, decide_eq_false_iff_not] at hc
      simp [cacheOrRefresh, getCachedToken, hc]

theorem cacheOrRefresh_hit_eq (cfg : CallConfig) (net : NetResult)
    {cache : Option Credential} {now : Int} {c : Credential}
    (hc : cache = some c) (hv : now < c.expiresAt) (ht : ¬ c.token = "") :
    cacheOrRefresh cfg net cache now = ⟨.ok c.token, cache, 0, none⟩ := by
  subst hc
  simp [cacheOrRefresh, getCachedToken, hv, ht]

/-- The truthiness check of `if (cached)`: a valid cached credential with
an empty token is not returned — the call falls through to the refresh. -/
theorem cacheOrRefresh_empty_token (cfg : CallConfig) (net : NetResult)
    {cache : Option Credential} {now : Int} {c : Credential}
    (hc : cache = some c) (hv : now < c.expiresAt) (ht : c.token = "") :
    cacheOrRefresh cfg net cache now = requestTokenF cfg net cache now := by
  subst hc
  simp [cacheOrRefresh, getCachedToken, hv, ht]

theorem requestTokenF_run {cfg : CallConfig} (net : NetResult)
    (cache : Option Credential) (now : Int) {cid cs : String}
    (hfetch : cfg.fetchAvailable = true)
    (hid : resolvedClientId cfg = some cid) (hcid : cid ≠ "")
    (hsec : resolvedClientSecret cfg = some cs) (hcs : cs ≠ "") :
    requestTokenF cfg net cache now =
      ⟨(settleOutcome net now cfg.bufferMs cache).1,
       (settleOutcome net now cfg.bufferMs cache).2, 1,
       some ⟨cid, cs, cfg.audience, "client_credentials", scopeField cfg.scope⟩⟩ := by
  unfold requestTokenF
  rw [hfetch, hid, hsec]
  simp [hcid, hcs]

theorem settleOutcome_error {net : NetResult} {now b : Int}
    {cache : Option Credential} {err : TokenError}
    (h : (settleOutcome net now b cache).1 = .error err) :
    (settleOutcome net now b cache).2 = cache := by
  cases net with
  | httpError st stx bt => rfl
  | success at? e =>
      cases at? with
      | none => rfl
      | some t =>
          by_cases ht : t = ""
          · simp [settleOutcome, ht]
          · simp [settleOutcome, ht] at h

theorem requestTokenF_error_cache {cfg : CallConfig} {net : NetResult}
    {cache : Option Credential} {now : Int} {err : TokenError}
    (h : (requestTokenF cfg net cache now).result = .error err) :
    (requestTokenF cfg net cache now).cache' = cache := by
  unfold requestTokenF at h ⊢
  cases hfe : cfg.fetchAvailable with
  | false => rfl
  | true =>
      rw [hfe] at h
      simp only [if_true]
      cases hid : resolvedClientId cfg with
      | none => rfl
      | some cid =>
          cases hsec : resolvedClientSecret cfg with
          | none => rfl
          | some cs =>
              rw [hid, hsec] at h
              by_cases hemp : cid = "" ∨ cs = ""
              · simp [hemp]
              · simp only [hemp, if_false, if_neg hemp] at h ⊢
                exact settleOutcome_error h

theorem getTokenOnce_error_cache {cfg : CallConfig} {net : NetResult}
    {cache : Option Credential} {now : Int} {err : TokenError}
    (h : (getTokenOnce cfg net cache now).result = .error err) :
    (getTokenOnce cfg net cache now).cache' = cache := by
  unfold getTokenOnce at h ⊢
  cases hf : resolvedFallback cfg with
  | some s =>
      rw [hf] at h
      by_cases hs : s = ""
      · simp only [hs, if_true, if_pos rfl] at h ⊢
        cases cache with
        | none => exact requestTokenF_error_cache h
        | some c =>
            by_cases hv : now < c.expiresAt
            · by_cases htk : c.token = ""
              · rw [cacheOrRefresh_empty_token cfg net rfl hv htk] at h ⊢
                exact requestTokenF_error_cache h
              · rw [cacheOrRefresh_hit_eq cfg net rfl hv htk] at h
                simp at h
            · rw [cacheOrRefresh_miss cfg net (by simp [cacheValid, hv])] at h ⊢
              exact requestTokenF_error_cache h
      · simp [hs] at h
  | none =>
      rw [hf] at h
      cases cache with
      | none => exact requestTokenF_error_cache h
      | some c =>
          by_cases hv : now < c.expiresAt
          · by_cases htk : c.token = ""
            · rw [cacheOrRefresh_empty_token cfg net rfl hv htk] at h ⊢
              exact requestTokenF_error_cache h
            · rw [cacheOrRefresh_hit_eq cfg net rfl hv htk] at h
              simp at h
          · rw [cacheOrRefresh_miss cfg net (by simp [cacheValid, hv])] at h ⊢
            exact requestTokenF_error_cache h

/-- C2.  Fallback precedence: whenever the configured fallback token
(static value, factory result, or environment lookup) resolves to a
non-empty string `s`, the call returns `s` with the cache untouched and
unread (the outcome is this same constant for every cache state), zero
token-endpoint requests, and no request payload — for every endpoint
behaviour, so the refresh path and its errors are unreachable. -/
theorem fallback_precedence (cfg : CallConfig) (net : NetResult)
    (cache : Option Credential) (now : Int) (s : String)
    (hs : resolvedFallback cfg = some s) (hne : s ≠ "") :
    getTokenOnce cfg net cache now = ⟨.ok s, cache, 0, none⟩ := by
  unfold getTokenOnce
  rw [hs]
  simp [hne]

/-- Witness for C2: a manual token wins over an expired-cache state and a
failing endpoint. -/
theorem fallback_precedence_witness :
    resolvedFallback ⟨true, some "manual", none, none, none, none, none, "a", none, 60000⟩ =
        some "manual" ∧ ("manual" : String) ≠ "" ∧
      getTokenOnce ⟨true, some "manual", none, none, none, none, none, "a", none, 60000⟩
        (.httpError 500 "ISE" none) (some ⟨"old", 99⟩) 100 =
        ⟨.ok "manual", some ⟨"old", 99⟩, 0, none⟩ :=
  ⟨rfl, by decide,
    fallback_precedence _ (.httpError 500 "ISE" none) (some ⟨"old", 99⟩) 100 "manual" rfl
      (by decide)⟩

/-- A configuration under which the refresh path can run: no fallback
token resolves, a fetch implementation exists, and both client
credentials resolve to non-empty strings. -/
structure RefreshReady (cfg : CallConfig) : Prop where
  noFallback : truthyS (resolvedFallback cfg) = false
  fetchOk : cfg.fetchAvailable = true
  creds : ∃ cid cs, resolvedClientId cfg = some cid ∧ cid ≠ "" ∧
    resolvedClientSecret cfg = some cs ∧ cs ≠ ""

/-- With no fallback and an invalid cache, one call performs exactly the
refresh, issuing one request and settling it. -/
theorem getTokenOnce_refresh {cfg : CallConfig} (hr : RefreshReady cfg)
    (net : NetResult) (cache : Option Credential) (now : Int)
    (hc : cacheValid cache now = false) :
    ∃ p, getTokenOnce cfg net cache now =
      ⟨(settleOutcome net now cfg.bufferMs cache).1,
       (settleOutcome net now cfg.bufferMs cache).2, 1, some p⟩ := by
  obtain ⟨cid, cs, hid, hcid, hsec, hcs⟩ := hr.creds
  exact ⟨_, by
    rw [getTokenOnce_no_fallback net cache now hr.noFallback,
        cacheOrRefresh_miss cfg net hc,
        requestTokenF_run net cache now hr.fetchOk hid hcid hsec hcs]⟩

/-- A cache that is invalid now stays invalid at any later time. -/
theorem cacheValid_mono {cache : Option Credential} {now₁ now₂ : Int}
    (h : cacheValid cache now₁ = false) (hle : now₁ ≤ now₂) :
    cacheValid cache now₂ = false := by
  cases cache with
  | none => rfl
  | some c =>
      simp only [cacheValid, decide_eq_false_iff_not] at h ⊢
      omega

/-- A valid cache entry short-circuits the call. -/
theorem getTokenOnce_cache_hit (cfg : CallConfig) (net : NetResult)
    {cache : Option Credential} (now : Int) {c : Credential}
    (hf : truthyS (resolvedFallback cfg) = false)
    (hc : cache = some c) (hv : now < c.expiresAt) (ht : c.token ≠ "") :
    getTokenOnce cfg net cache now = ⟨.ok c.token, cache, 0, none⟩ := by
  rw [getTokenOnce_no_fallback net cache now hf, cacheOrRefresh_hit_eq cfg net hc hv ht]

/-- C3.  Cache validity (no fallback resolving): (a) a cached credential
with `expiresAt` strictly in the future and a non-empty token — and every
credential the provider ever stores has a non-empty token, see
`nonempty_token_resolution` — is returned with zero network calls; (b) a
first call from an invalid cache against a succeeding endpoint makes
exactly one request and a second call within the stored TTL window makes
zero more, returning the same token; (c) a call whose cached credential
has expired triggers exactly one new request; (d) faithfulness of the
`if (cached)` truthiness check: a valid cached credential whose token is
the empty string is not returned — such a call falls through to the
refresh and issues one request. -/
theorem cache_validity :
    (∀ (cfg : CallConfig) (net : NetResult) (cache : Option Credential) (now : Int)
       (c : Credential), truthyS (resolvedFallback cfg) = false →
       cache = some c → now < c.expiresAt → c.token ≠ "" →
       getTokenOnce cfg net cache now = ⟨.ok c.token, cache, 0, none⟩) ∧
    (∀ (cfg₁ cfg₂ : CallConfig) (net₂ : NetResult) (cache : Option Credential)
       (now₁ now₂ : Int) (t : String) (e : Option Int),
       RefreshReady cfg₁ → cacheValid cache now₁ = false → t ≠ "" →
       truthyS (resolvedFallback cfg₂) = false →
       now₂ < now₁ + ttlMs e cfg₁.bufferMs →
       (getTokenOnce cfg₁ (.success (some t) e) cache now₁).netCalls = 1 ∧
       (getTokenOnce cfg₁ (.success (some t) e) cache now₁).result = .ok t ∧
       getTokenOnce cfg₂ net₂
           (getTokenOnce cfg₁ (.success (some t) e) cache now₁).cache' now₂ =
         ⟨.ok t, (getTokenOnce cfg₁ (.success (some t) e) cache now₁).cache', 0, none⟩) ∧
    (∀ (cfg : CallConfig) (net : NetResult) (cache : Option Credential) (now : Int)
       (c : Credential), RefreshReady cfg → cache = some c → c.expiresAt ≤ now →
       (getTokenOnce cfg net cache now).netCalls = 1) ∧
    (∀ (cfg : CallConfig) (net : NetResult) (cache : Option Credential) (now : Int)
       (c : Credential), RefreshReady cfg → cache = some c → now < c.expiresAt →
       c.token = "" → (getTokenOnce cfg net cache now).netCalls = 1) := by
  refine ⟨?_, ?_, ?_, ?_⟩
  · intro cfg net cache now c hf hc hv ht
    exact getTokenOnce_cache_hit cfg net now hf hc hv ht
  · intro cfg₁ cfg₂ net₂ cache now₁ now₂ t e hr hc ht hf₂ hwin
    have hset : settleOutcome (.success (some t) e) now₁ cfg₁.bufferMs cache =
        (.ok t, some ⟨t, now₁ + ttlMs e cfg₁.bufferMs⟩) := by
      simp [settleOutcome, ht]
    obtain ⟨p, hp⟩ := getTokenOnce_refresh hr (.success (some t) e) cache now₁ hc
    rw [hp, hset]
    refine ⟨rfl, rfl, ?_⟩
    exact getTokenOnce_cache_hit cfg₂ net₂ now₂ hf₂ rfl hwin ht
  · intro cfg net cache now c hr hc hv
    have hcv : cacheValid cache now = false := by
      rw [hc]
      simp only [cacheValid, decide_eq_false_iff_not]
      omega
    obtain ⟨p, hp⟩ := getTokenOnce_refresh hr net cache now hcv
    rw [hp]
  · intro cfg net cache now c hr hc hv ht
    obtain ⟨cid, cs, hid, hcid, hsec, hcs⟩ := hr.creds
    rw [getTokenOnce_no_fallback net cache now hr.noFallback,
        cacheOrRefresh_empty_token cfg net hc hv ht,
        requestTokenF_run net cache now hr.fetchOk hid hcid hsec hcs]

/-- Witness for C3 at concrete inputs: a valid non-empty cached token is
returned as such; a first call from an empty cache makes the one request
and a second call 1000 ms later (well within the 3 540 000 ms TTL) makes
none and returns the same token; a call with an expired entry makes one
request; a valid entry with an empty token falls through and makes one
request. -/
theorem cache_validity_witness :
    getTokenOnce ⟨true, none, none, some "id", none, some "sec", none, "a", none, 60000⟩
        (.httpError 500 "ISE" none) (some ⟨"C", 99⟩) 10 =
      ⟨.ok "C", some ⟨"C", 99⟩, 0, none⟩ ∧
    ((getTokenOnce ⟨true, none, none, some "id", none, some "sec", none, "a", none, 60000⟩
        (.success (some "T") (some 3600)) none 0).netCalls = 1 ∧
     (getTokenOnce ⟨true, none, none, some "id", none, some "sec", none, "a", none, 60000⟩
        (.success (some "T") (some 3600)) none 0).result = .ok "T" ∧
     getTokenOnce ⟨true, none, none, some "id", none, some "sec", none, "a", none, 60000⟩
        (.success (some "U") (some 3600))
        (getTokenOnce ⟨true, none, none, some "id", none, some "sec", none, "a", none, 60000⟩
          (.success (some "T") (some 3600)) none 0).cache' 1000 =
       ⟨.ok "T",
        (getTokenOnce ⟨true, none, none, some "id", none, some "sec", none, "a", none, 60000⟩
          (.success (some "T") (some 3600)) none 0).cache', 0, none⟩) ∧
    (getTokenOnce ⟨true, none, none, some "id", none, some "sec", none, "a", none, 60000⟩
        (.success (some "V") none) (some ⟨"T", 500⟩) 500).netCalls = 1 ∧
    (getTokenOnce ⟨true, none, none, some "id", none, some "sec", none, "a", none, 60000⟩
        (.success (some "W") none) (some ⟨"", 100⟩) 0).netCalls = 1 := by
  refine ⟨?_, ?_, ?_, ?_⟩
  · exact cache_validity.1 _ (.httpError 500 "ISE" none) (some ⟨"C", 99⟩) 10 ⟨"C", 99⟩
      (by decide) rfl (by decide) (by decide)
  · exact cache_validity.2.1 _ _ (.success (some "U") (some 3600)) none 0 1000 "T" (some 3600)
      ⟨rfl, rfl, "id", "sec", rfl, by decide, rfl, by decide⟩ rfl (by decide) rfl (by decide)
  · exact cache_validity.2.2.1 _ (.success (some "V") none) _ 500 ⟨"T", 500⟩
      ⟨rfl, rfl, "id", "sec", rfl, by decide, rfl, by decide⟩ rfl (by decide)
  · exact cache_validity.2.2.2 _ (.success (some "W") none) _ 0 ⟨"", 100⟩
      ⟨rfl, rfl, "id", "sec", rfl, by decide, rfl, by decide⟩ rfl (by decide) (by decide)

/-- C5.  Failure atomicity and retry: (a) in every reachable state of the
concurrent model, under any scenario, a flight whose `requestToken`
promise has settled — successfully or not — is no longer the in-flight
marker (the `finally` cleared it); (b) a call that fails leaves the cache
exactly as it was; (c) after a call fails on a non-2xx endpoint response,
the next invocation performs a fresh refresh over the network (one new
request) instead of reusing the failed state. -/
theorem refresh_failure_atomicity_and_retry :
    (∀ (n : Nat) (sc : Scenario) (s : SysState n), Reachable n sc s →
       ∀ (j : Nat) (r : Except TokenError String),
         s.flights[j]? = some (.settled r) → s.inFlight ≠ some j) ∧
    (∀ (cfg : CallConfig) (net : NetResult) (cache : Option Credential) (now : Int)
       (err : TokenError), (getTokenOnce cfg net cache now).result = .error err →
       (getTokenOnce cfg net cache now).cache' = cache) ∧
    (∀ (cfg₁ cfg₂ : CallConfig) (st : Nat) (stx : String) (bt : Option String)
       (net₂ : NetResult) (cache : Option Credential) (now₁ now₂ : Int),
       RefreshReady cfg₁ → RefreshReady cfg₂ →
       cacheValid cache now₁ = false → now₁ ≤ now₂ →
       (∃ e, (getTokenOnce cfg₁ (.httpError st stx bt) cache now₁).result = .error e) ∧
       (getTokenOnce cfg₁ (.httpError st stx bt) cache now₁).netCalls = 1 ∧
       (getTokenOnce cfg₂ net₂
          (getTokenOnce cfg₁ (.httpError st stx bt) cache now₁).cache' now₂).netCalls = 1) := by
  refine ⟨?_, ?_, ?_⟩
  · intro n sc s hr j r hj hin
    have h := ((inv0_reachable hr).2 j _ hj).mp hin
    simp [FlightPhase.isSettled] at h
  · intro cfg net cache now err h
    exact getTokenOnce_error_cache h
  · intro cfg₁ cfg₂ st stx bt net₂ cache now₁ now₂ hr₁ hr₂ hc hle
    obtain ⟨p, hp⟩ := getTokenOnce_refresh hr₁ (.httpError st stx bt) cache now₁ hc
    rw [hp]
    refine ⟨⟨.endpoint st stx (bt.getD "<no body>"), rfl⟩, rfl, ?_⟩
    have hc₂ : cacheValid cache now₂ = false := cacheValid_mono hc hle
    obtain ⟨p₂, hp₂⟩ := getTokenOnce_refresh hr₂ net₂ cache now₂ hc₂
    rw [show (settleOutcome (.httpError st stx bt) now₁ cfg₁.bufferMs cache).2 = cache from rfl,
        hp₂]

/-- The scenario of the concrete failing episode behind the C5 witness:
one caller, no fallback, empty cache, endpoint answering 503. -/
def failScenario : Scenario :=
  { now := 0, bufferMs := 60000, fallbackRes := none, fetchAvailable := true,
    clientId := some "id", clientSecret := some "secret",
    net := .httpError 503 "SU" none, cache0 := none }

/-- State of the failing episode right after the flight's `finally` ran:
the flight is settled with the endpoint error and the marker is clear. -/
def failFinal : SysState 1 :=
  { callers := Function.update (fun _ => CallerPC.start) 0 (.awaiting 0),
    cache := none,
    flights := [.settled (.error (.endpoint 503 "SU" "<no body>"))],
    inFlight := none, reqCount := 1 }

theorem failFinal_reachable : Reachable 1 failScenario failFinal := by
  have h0 : Reachable 1 failScenario (initState 1 failScenario) := Relation.ReflTransGen.refl
  have h1 := Relation.ReflTransGen.tail h0
    (Step.newFlight (initState 1 failScenario) 0 rfl rfl rfl rfl)
  have h2 := Relation.ReflTransGen.tail h1 (Step.flightIssue _ 0 rfl rfl (by decide) (by decide))
  have h3 := Relation.ReflTransGen.tail h2 (Step.flightRespond _ 0 rfl)
  have h4 := Relation.ReflTransGen.tail h3 (Step.flightParse _ 0 rfl)
  have h5 := Relation.ReflTransGen.tail h4 (Step.flightSettle _ 0 _ rfl)
  exact h5

/-- Witness for C5 at concrete inputs: the settled failing flight has a
cleared marker; a concrete failing call leaves the cache in place; the
following call fetches again. -/
theorem refresh_failure_atomicity_and_retry_witness :
    failFinal.inFlight ≠ some 0 ∧
    (getTokenOnce ⟨true, none, none, some "id", none, some "sec", none, "a", none, 60000⟩
        (.success none none) (some ⟨"T", 10⟩) 100).cache' = some ⟨"T", 10⟩ ∧
    (getTokenOnce ⟨true, none, none, some "id", none, some "sec", none, "a", none, 60000⟩
        (.httpError 503 "SU" (some "busy")) none 0).netCalls = 1 ∧
    (getTokenOnce ⟨true, none, none, some "id", none, some "sec", none, "a", none, 60000⟩
        (.success (some "T") none)
        (getTokenOnce ⟨true, none, none, some "id", none, some "sec", none, "a", none, 60000⟩
          (.httpError 503 "SU" (some "busy")) none 0).cache' 5).netCalls = 1 := by
  refine ⟨?_, ?_, ?_, ?_⟩
  · exact refresh_failure_atomicity_and_retry.1 1 failScenario failFinal failFinal_reachable
      0 (.error (.endpoint 503 "SU" "<no body>")) rfl
  · exact refresh_failure_atomicity_and_retry.2.1
      (⟨true, none, none, some "id", none, some "sec", none, "a", none, 60000⟩ : CallConfig)
      (.success none none) (some ⟨"T", 10⟩) 100 .malformed (by decide)
  · exact (refresh_failure_atomicity_and_retry.2.2
      (⟨true, none, none, some "id", none, some "sec", none, "a", none, 60000⟩ : CallConfig)
      (⟨true, none, none, some "id", none, some "sec", none, "a", none, 60000⟩ : CallConfig)
      503 "SU" (some "busy") (.success (some "T") none) none 0 5
      ⟨rfl, rfl, "id", "sec", rfl, by decide, rfl, by decide⟩
      ⟨rfl, rfl, "id", "sec", rfl, by decide, rfl, by decide⟩ rfl (by decide)).2.1
  · exact (refresh_failure_atomicity_and_retry.2.2
      (⟨true, none, none, some "id", none, some "sec", none, "a", none, 60000⟩ : CallConfig)
      (⟨true, none, none, some "id", none, some "sec", none, "a", none, 60000⟩ : CallConfig)
      503 "SU" (some "busy") (.success (some "T") none) none 0 5
      ⟨rfl, rfl, "id", "sec", rfl, by decide, rfl, by decide⟩
      ⟨rfl, rfl, "id", "sec", rfl, by decide, rfl, by decide⟩ rfl (by decide)).2.2

/-- C8.  Endpoint failure surfaces: a non-2xx token-endpoint response makes
the call fail with the endpoint error carrying the response's status code,
status text and a best-effort body text, substituting the `'<no body>'`
placeholder when the body read itself failed, after exactly one request. -/
theorem endpoint_failure_surfaces (cfg : CallConfig) (st : Nat) (stx : String)
    (bt : Option String) (cache : Option Credential) (now : Int)
    (hr : RefreshReady cfg) (hc : cacheValid cache now = false) :
    (getTokenOnce cfg (.httpError st stx bt) cache now).result =
        .error (.endpoint st stx (bt.getD "<no body>")) ∧
    (getTokenOnce cfg (.httpError st stx bt) cache now).netCalls = 1 := by
  obtain ⟨p, hp⟩ := getTokenOnce_refresh hr (.httpError st stx bt) cache now hc
  rw [hp]
  exact ⟨rfl, rfl⟩

/-- Witness for C8: a 404 with readable body surfaces that body; a 500
whose body read fails surfaces the placeholder. -/
theorem endpoint_failure_surfaces_witness :
    (getTokenOnce ⟨true, none, none, some "id", none, some "sec", none, "a", none, 60000⟩
        (.httpError 404 "NF" (some "nope")) none 0).result =
      .error (.endpoint 404 "NF" "nope") ∧
    (getTokenOnce ⟨true, none, none, some "id", none, some "sec", none, "a", none, 60000⟩
        (.httpError 500 "ISE" none) none 0).result =
      .error (.endpoint 500 "ISE" "<no body>") :=
  ⟨(endpoint_failure_surfaces (⟨true, none, none, some "id", none, some "sec", none, "a", none, 60000⟩ : CallConfig) 404 "NF" (some "nope") none 0
      ⟨rfl, rfl, "id", "sec", rfl, by decide, rfl, by decide⟩ rfl).1,
   (endpoint_failure_surfaces (⟨true, none, none, some "id", none, some "sec", none, "a", none, 60000⟩ : CallConfig) 500 "ISE" none none 0
      ⟨rfl, rfl, "id", "sec", rfl, by decide, rfl, by decide⟩ rfl).1⟩

/-- Well-formed cache: any stored credential's token is non-empty (the
cache is only ever written after the `access_token` truthiness check). -/
def cacheWF (cache : Option Credential) : Prop :=
  ∀ c, cache = some c → c.token ≠ ""

theorem settleOutcome_ok {net : NetResult} {now b : Int}
    {cache : Option Credential} {t : String}
    (h : (settleOutcome net now b cache).1 = .ok t) :
    t ≠ "" ∧ ∃ x, (settleOutcome net now b cache).2 = some ⟨t, x⟩ := by
  cases net with
  | httpError st stx bt => exact absurd h (by simp [settleOutcome])
  | success at? e =>
      cases at? with
      | none => exact absurd h (by simp [settleOutcome])
      | some u =>
          by_cases hu : u = ""
          · simp [settleOutcome, hu] at h
          · have hut : u = t := by simpa [settleOutcome, hu] using h
            subst hut
            exact ⟨hu, now + ttlMs e b, by simp [settleOutcome, hu]⟩

theorem requestTokenF_ok {cfg : CallConfig} {net : NetResult}
    {cache : Option Credential} {now : Int} {t : String}
    (h : (requestTokenF cfg net cache now).result = .ok t) :
    t ≠ "" ∧ ∃ x, (requestTokenF cfg net cache now).cache' = some ⟨t, x⟩ := by
  unfold requestTokenF at h ⊢
  cases hfe : cfg.fetchAvailable with
  | false => rw [hfe] at h; simp at h
  | true =>
      rw [hfe] at h
      rw [if_pos rfl] at h ⊢
      cases hid : resolvedClientId cfg with
      | none => rw [hid] at h; simp at h
      | some cid =>
          rw [hid] at h
          cases hsec : resolvedClientSecret cfg with
          | none => rw [hsec] at h; simp at h
          | some cs =>
              rw [hsec] at h
              dsimp only at h ⊢
              by_cases hemp : cid = "" ∨ cs = ""
              · simp [hemp] at h
              · rw [if_neg hemp] at h ⊢
                exact settleOutcome_ok h

theorem cacheOrRefresh_ok {cfg : CallConfig} {net : NetResult}
    {cache : Option Credential} {now : Int} {t : String}
    (h : (cacheOrRefresh cfg net cache now).result = .ok t) :
    t ≠ "" ∧ ((cacheOrRefresh cfg net cache now).cache' = cache ∨
      ∃ x, (cacheOrRefresh cfg net cache now).cache' = some ⟨t, x⟩) := by
  cases cache with
  | none =>
      obtain ⟨hne, x, hx⟩ := requestTokenF_ok h
      exact ⟨hne, Or.inr ⟨x, hx⟩⟩
  | some c =>
      by_cases hv : now < c.expiresAt
      · by_cases htk : c.token = ""
        · rw [cacheOrRefresh_empty_token cfg net rfl hv htk] at h ⊢
          obtain ⟨hne, x, hx⟩ := requestTokenF_ok h
          exact ⟨hne, Or.inr ⟨x, hx⟩⟩
        · rw [cacheOrRefresh_hit_eq cfg net rfl hv htk] at h ⊢
          have hct : c.token = t := by simpa using h
          rw [← hct]
          exact ⟨htk, Or.inl rfl⟩
      · rw [cacheOrRefresh_miss cfg net (by simp [cacheValid, hv])] at h ⊢
        obtain ⟨hne, x, hx⟩ := requestTokenF_ok h
        exact ⟨hne, Or.inr ⟨x, hx⟩⟩

theorem getTokenOnce_ok {cfg : CallConfig} {net : NetResult}
    {cache : Option Credential} {now : Int} {t : String}
    (h : (getTokenOnce cfg net cache now).result = .ok t) :
    t ≠ "" ∧ ((getTokenOnce cfg net cache now).cache' = cache ∨
      ∃ x, (getTokenOnce cfg net cache now).cache' = some ⟨t, x⟩) := by
  unfold getTokenOnce at h ⊢
  cases hf : resolvedFallback cfg with
  | some s =>
      rw [hf] at h
      dsimp only at h ⊢
      by_cases hs : s = ""
      · simp only [if_pos hs] at h ⊢
        exact cacheOrRefresh_ok h
      · simp only [if_neg hs] at h ⊢
        have hst : s = t := by simpa using h
        subst hst
        exact ⟨hs, Or.inl (by simp)⟩
  | none =>
      rw [hf] at h
      dsimp only at h ⊢
      exact cacheOrRefresh_ok h

/-- C10.  Non-empty token result: starting from a well-formed cache (and
the cache starts out empty, hence well-formed), a successful resolution
never yields the empty string — the fallback path returns only truthy
values, cache hits return only checked tokens, and the refresh path
returns `access_token` only past its presence check — and the call leaves
the cache well-formed, so the invariant holds across any call sequence. -/
theorem nonempty_token_resolution (cfg : CallConfig) (net : NetResult)
    (cache : Option Credential) (now : Int) (hwf : cacheWF cache) :
    (∀ t, (getTokenOnce cfg net cache now).result = .ok t → t ≠ "") ∧
    cacheWF ((getTokenOnce cfg net cache now).cache') := by
  constructor
  · intro t h
    exact (getTokenOnce_ok h).1
  · cases hres : (getTokenOnce cfg net cache now).result with
    | error err =>
        rw [getTokenOnce_error_cache hres]
        exact hwf
    | ok t =>
        obtain ⟨hne, hca | ⟨x, hx⟩⟩ := getTokenOnce_ok hres
        · rw [hca]; exact hwf
        · rw [hx]
          intro c hc
          injection hc with hc
          rw [← hc]
          exact hne

/-- Witness for C10: a concrete successful refresh yields a non-empty
token and re-establishes cache well-formedness. -/
theorem nonempty_token_resolution_witness :
    ("T" : String) ≠ "" ∧
    cacheWF ((getTokenOnce ⟨true, none, none, some "id", none, some "sec", none, "a", none, 60000⟩
      (.success (some "T") (some 10)) none 0).cache') := by
  have hwf : cacheWF none := fun c hc => Option.noConfusion hc
  have h := nonempty_token_resolution
    ⟨true, none, none, some "id", none, some "sec", none, "a", none, 60000⟩
    (.success (some "T") (some 10)) none 0 hwf
  exact ⟨h.1 "T" (by decide), h.2⟩

/-- Counterexample to C4 as stated: a successful response that supplies
`expires_in = 0` (a supplied value, so the claimed formula demands
`ttl = max 5000 (0*1000 - 60000) = 5000`) is stored by the code with the
3600-second default instead — `expiresAt = now + 3540000`, because the
source uses a supplied `expires_in` only when it is positive. -/
theorem ttl_computation_counterexample :
    (getTokenOnce ⟨true, none, none, some "id", none, some "sec", none, "a", none, 60000⟩
        (.success (some "T") (some 0)) none 0).cache' = some ⟨"T", 3540000⟩ ∧
    (3540000 : Int) ≠ max 5000 (0 * 1000 - 60000) := by
  constructor
  · decide
  · decide

/-- C4 (amended).  TTL computation: every successful refresh stores
`expiresAt = now + ttlMs`, where `ttlMs = max(5000, expires_in*1000 −
expirationBufferMs)` when the response supplies a positive `expires_in`,
and `expires_in` is taken as 3600 seconds when it is omitted or
non-positive; the TTL never drops below the 5000 ms floor. -/
theorem ttl_computation (cfg : CallConfig) (t : String) (e : Option Int)
    (cache : Option Credential) (now : Int) (ht : t ≠ "")
    (hr : RefreshReady cfg) (hc : cacheValid cache now = false) :
    (getTokenOnce cfg (.success (some t) e) cache now).cache' =
        some ⟨t, now + ttlMs e cfg.bufferMs⟩ ∧
    (∀ e', e = some e' → 0 < e' →
       ttlMs e cfg.bufferMs = max 5000 (e' * 1000 - cfg.bufferMs)) ∧
    (∀ e', e = some e' → e' ≤ 0 →
       ttlMs e cfg.bufferMs = max 5000 (3600 * 1000 - cfg.bufferMs)) ∧
    (e = none → ttlMs e cfg.bufferMs = max 5000 (3600 * 1000 - cfg.bufferMs)) ∧
    5000 ≤ ttlMs e cfg.bufferMs := by
  refine ⟨?_, ?_, ?_, ?_, ttlMs_ge e cfg.bufferMs⟩
  · obtain ⟨p, hp⟩ := getTokenOnce_refresh hr (.success (some t) e) cache now hc
    rw [hp]
    simp [settleOutcome, ht]
  · intro e' he hpos
    subst he
    simp [ttlMs, expiresInSecondsOf, hpos]
  · intro e' he hnpos
    subst he
    have : ¬ (0 : Int) < e' := by omega
    simp only [ttlMs, expiresInSecondsOf, if_neg this]
    norm_num [TOKEN_DEFAULT_EXPIRES_IN_SECONDS]
  · intro he
    subst he
    simp only [ttlMs, expiresInSecondsOf]
    norm_num [TOKEN_DEFAULT_EXPIRES_IN_SECONDS]

/-- Witness for the amended C4: `expires_in = 1` with the default buffer
stores `expiresAt = now + 5000` — the floor is reached, never undercut. -/
theorem ttl_computation_witness :
    (getTokenOnce ⟨true, none, none, some "id", none, some "sec", none, "a", none, 60000⟩
        (.success (some "T") (some 1)) none 0).cache' =
      some ⟨"T", 0 + ttlMs (some 1) 60000⟩ ∧
    ttlMs (some 1) 60000 = 5000 := by
  have h := ttl_computation
    ⟨true, none, none, some "id", none, some "sec", none, "a", none, 60000⟩
    "T" (some 1) none 0 (by decide)
    ⟨rfl, rfl, "id", "sec", rfl, by decide, rfl, by decide⟩ rfl
  exact ⟨h.1, by decide⟩

/-! ## Lookup lemmas for header composition -/

theorem find?_set_map_ne {h : HeadersM} {k' v nm' : String} (hne : ¬ k' = nm') :
    (h.map (fun p => if p.1 = k' then (k', v) else p)).find? (fun p => p.1 = nm') =
      h.find? (fun p => p.1 = nm') := by
  induction h with
  | nil => rfl
  | cons p t ih =>
      by_cases hp : p.1 = k'
      · rw [List.map_cons, if_pos hp]
        rw [List.find?_cons_of_neg _ (by simp [hne])]
        rw [List.find?_cons_of_neg _ (by simp [hp, hne])]
        exact ih
      · rw [List.map_cons, if_neg hp]
        by_cases hq : p.1 = nm'
        · rw [List.find?_cons_of_pos _ (by simp [hq]), List.find?_cons_of_pos _ (by simp [hq])]
        · rw [List.find?_cons_of_neg _ (by simp [hq]), List.find?_cons_of_neg _ (by simp [hq])]
          exact ih

theorem find?_set_map_eq {h : HeadersM} {k' v : String}
    (hany : h.any (fun p => p.1 = k') = true) :
    (h.map (fun p => if p.1 = k' then (k', v) else p)).find? (fun p => p.1 = k') =
      some (k', v) := by
  induction h with
  | nil => simp at hany
  | cons p t ih =>
      by_cases hp : p.1 = k'
      · rw [List.map_cons, if_pos hp]
        rw [List.find?_cons_of_pos _ (by simp)]
      · rw [List.map_cons, if_neg hp]
        rw [List.find?_cons_of_neg _ (by simp [hp])]
        apply ih
        simpa [hp] using hany

/-- The one `Headers.set` equation: looking up `nm` after `set k v` yields
`v` when the names agree case-insensitively, and the old value otherwise. -/
theorem hset_lookup (h : HeadersM) (k v nm : String) :
    hlookup (hset h k v) nm =
      if lowerString k = lowerString nm then some v else hlookup h nm := by
  unfold hset hlookup
  by_cases hany : h.any (fun p => p.1 = lowerString k) = true
  · rw [if_pos hany]
    by_cases hk : lowerString k = lowerString nm
    · rw [if_pos hk, ← hk, find?_set_map_eq hany]
      rfl
    · rw [if_neg hk, find?_set_map_ne hk]
  · rw [if_neg hany]
    rw [List.find?_append]
    by_cases hk : lowerString k = lowerString nm
    · rw [if_pos hk]
      have hnone : h.find? (fun p => p.1 = lowerString nm) = none := by
        rw [← hk]
        refine List.find?_eq_none.mpr ?_
        intro x hx hpx
        exact hany (List.any_eq_true.mpr ⟨x, hx, hpx⟩)
      rw [hnone]
      simp [List.find?, hk]
    · rw [if_neg hk]
      have hone : (([(lowerString k, v)] : HeadersM).find? (fun p => p.1 = lowerString nm)) = none := by
        simp [List.find?, hk]
      rw [hone]
      simp

/-- The value the merge of a source would leave at name `nm`: its last
entry with that (case-insensitive) name and a non-nullish value. -/
def lastVal (l : List (String × Option String)) (nm : String) : Option String :=
  match l with
  | [] => none
  | p :: l =>
      match p.2 with
      | some v => (lastVal l nm).or (if lowerString p.1 = lowerString nm then some v else none)
      | none => lastVal l nm

theorem foldl_mergeStep_lookup (l : List (String × Option String)) (t : HeadersM)
    (nm : String) :
    hlookup (l.foldl mergeStep t) nm = (lastVal l nm).or (hlookup t nm) := by
  induction l generalizing t with
  | nil => simp [lastVal]
  | cons p l ih =>
      cases hp2 : p.2 with
      | none =>
          rw [List.foldl_cons, show mergeStep t p = t by simp [mergeStep, hp2], ih]
          rw [show lastVal (p :: l) nm = lastVal l nm by rw [lastVal, hp2]]
      | some v =>
          rw [List.foldl_cons, show mergeStep t p = hset t p.1 v by simp [mergeStep, hp2], ih]
          rw [show lastVal (p :: l) nm =
            (lastVal l nm).or (if lowerString p.1 = lowerString nm then some v else none) by
              rw [lastVal, hp2]]
          rw [hset_lookup]
          rcases lastVal l nm with - | w
          · by_cases hk : lowerString p.1 = lowerString nm
            · simp [hk]
            · simp [hk]
          · simp

/-- A `Headers` source merges like an object source whose values are all
present. -/
theorem foldl_hset_eq_mergeStep (h : HeadersM) (t : HeadersM) :
    h.foldl (fun acc p => hset acc p.1 p.2) t =
      (h.map (fun p => (p.1, some p.2))).foldl mergeStep t := by
  induction h generalizing t with
  | nil => rfl
  | cons p l ih => simp [List.foldl_cons, mergeStep, ih]

/-- The entry sequence a source contributes to the merge. -/
def entriesOf : HeaderInput → List (String × Option String)
  | .hmap l => l
  | .harr l => l
  | .hobj h => h.map (fun p => (p.1, some p.2))

theorem mergeIntoHeadersM_eq (t : HeadersM) (src : HeaderInput) :
    mergeIntoHeadersM t (some src) = (entriesOf src).foldl mergeStep t := by
  cases src with
  | hmap l => rfl
  | harr l => rfl
  | hobj h => exact foldl_hset_eq_mergeStep h t

/-- The value a (possibly absent) source's merge writes at name `nm`. -/
def writtenValue (src : Option HeaderInput) (nm : String) : Option String :=
  match src with
  | none => none
  | some s => lastVal (entriesOf s) nm

/-- Merging a source changes a name's value to the source's last write for
it, and preserves it when the source never writes the name. -/
theorem mergeIntoHeadersM_lookup (t : HeadersM) (src : Option HeaderInput) (nm : String) :
    hlookup (mergeIntoHeadersM t src) nm = (writtenValue src nm).or (hlookup t nm) := by
  cases src with
  | none => simp [mergeIntoHeadersM, writtenValue]
  | some s => rw [mergeIntoHeadersM_eq, foldl_mergeStep_lookup]; rfl

theorem authApply_lookup (h : HeadersM) (token : Option String) (nm : String) :
    hlookup (authApply h token) nm =
      match token with
      | some t =>
          if t = "" then hlookup h nm
          else if ("authorization" : String) = lowerString nm then some (authValue t)
          else hlookup h nm
      | none => hlookup h nm := by
  cases token with
  | none => rfl
  | some t =>
      by_cases ht : t = ""
      · simp [authApply, ht]
      · rw [show authApply h (some t) = hset h "Authorization" (authValue t) by
          simp [authApply, ht]]
        rw [hset_lookup]
        simp only [if_neg ht]
        rw [show (lowerString "Authorization") = "authorization" from by decide]

/-- `buildHeaders` never loses a lookup to the emptiness check: an omitted
header object looks up like an empty one. -/
theorem buildHeadersF_lookup (d : Option HeaderInput) (token : Option String)
    (r : Option HeaderInput) (nm : String) :
    hlookupO (buildHeadersF d token r) nm =
      hlookup (mergeIntoHeadersM (authApply (mergeIntoHeadersM [] d) token) r) nm := by
  unfold buildHeadersF hlookupO
  by_cases he : (mergeIntoHeadersM (authApply (mergeIntoHeadersM [] d) token) r).isEmpty = true
  · rw [if_pos he]
    rw [List.isEmpty_iff.mp he]
    rfl
  · rw [if_neg he]

/-- C6.  Header composition in strict order — defaults, then the
auto-set `Authorization`, then caller headers — later writes winning on
case-insensitive name collision: (i) the spec's example — defaults
`{A:"1"}`, a resolved token, per-call `{A:"2", Authorization:"X"}` —
composes to exactly `{a:"2", authorization:"X"}`; (ii) any name the
caller headers write resolves to the caller's last written value,
overriding defaults and auth; (iii) with a truthy token and no caller
`Authorization` override, the composed `Authorization` is `authValue`:
the token unchanged when it already begins with `"Bearer "`, else
`"Bearer " + token`, never double-prefixed; (iv) when no token resolves
(absent or empty) and nobody writes `Authorization`, no `Authorization`
header is present. -/
theorem header_composition :
    (hlookupO (buildHeadersF (some (.hmap [("A", some "1")])) (some "tok")
        (some (.hmap [("A", some "2"), ("Authorization", some "X")]))) "A" = some "2" ∧
     hlookupO (buildHeadersF (some (.hmap [("A", some "1")])) (some "tok")
        (some (.hmap [("A", some "2"), ("Authorization", some "X")]))) "Authorization" =
        some "X" ∧
     (buildHeadersF (some (.hmap [("A", some "1")])) (some "tok")
        (some (.hmap [("A", some "2"), ("Authorization", some "X")]))).map List.length =
        some 2) ∧
    (∀ (d : Option HeaderInput) (tok : Option String) (r : HeaderInput) (nm : String)
       (v : String), writtenValue (some r) nm = some v →
       hlookupO (buildHeadersF d tok (some r)) nm = some v) ∧
    (∀ (d : Option HeaderInput) (tok : String) (r : Option HeaderInput),
       tok ≠ "" → writtenValue r "Authorization" = none →
       hlookupO (buildHeadersF d (some tok) r) "Authorization" = some (authValue tok)) ∧
    (∀ t : String, (startsWithM t "Bearer " = true → authValue t = t) ∧
       (startsWithM t "Bearer " = false → authValue t = "Bearer " ++ t)) ∧
    (∀ (d r : Option HeaderInput) (tok : Option String),
       (tok = none ∨ tok = some "") →
       writtenValue r "Authorization" = none → writtenValue d "Authorization" = none →
       hlookupO (buildHeadersF d tok r) "Authorization" = none) := by
  refine ⟨⟨by decide, by decide, by decide⟩, ?_, ?_, ?_, ?_⟩
  · intro d tok r nm v h
    rw [buildHeadersF_lookup, mergeIntoHeadersM_lookup, h]
    rfl
  · intro d tok r ht hw
    rw [buildHeadersF_lookup, mergeIntoHeadersM_lookup, hw]
    rw [show (Option.or none (hlookup (authApply (mergeIntoHeadersM [] d) (some tok))
      "Authorization")) = hlookup (authApply (mergeIntoHeadersM [] d) (some tok))
      "Authorization" from rfl]
    rw [authApply_lookup]
    rw [show (lowerString "Authorization") = "authorization" from by decide]
    simp [ht]
  · intro t
    constructor
    · intro h
      unfold authValue
      rw [if_pos h]
    · intro h
      unfold authValue
      rw [if_neg (by rw [h]; exact Bool.false_ne_true)]
  · intro d r tok htok hwr hwd
    rw [buildHeadersF_lookup, mergeIntoHeadersM_lookup, hwr]
    rcases htok with h | h
    all_goals subst h
    · rw [show authApply (mergeIntoHeadersM [] d) none = mergeIntoHeadersM [] d from rfl]
      rw [mergeIntoHeadersM_lookup, hwd]
      rfl
    · rw [show authApply (mergeIntoHeadersM [] d) (some "") = mergeIntoHeadersM [] d from by
        simp [authApply]]
      rw [mergeIntoHeadersM_lookup, hwd]
      rfl

/-- Witness for C6 at concrete inputs: a caller-written name wins; a
truthy non-`Bearer` token auto-sets `Authorization: Bearer tok`; a
`Bearer`-prefixed token passes through unchanged; an absent token adds no
`Authorization`. -/
theorem header_composition_witness :
    hlookupO (buildHeadersF none none (some (.hmap [("K", some "v")]))) "K" = some "v" ∧
    hlookupO (buildHeadersF none (some "tok") none) "Authorization" = some "Bearer tok" ∧
    authValue "Bearer abc" = "Bearer abc" ∧
    hlookupO (buildHeadersF none none (some (.harr [("X", some "1")]))) "Authorization" =
      none := by
  refine ⟨?_, ?_, ?_, ?_⟩
  · exact header_composition.2.1 none none (.hmap [("K", some "v")]) "K" "v" (by decide)
  · have h := header_composition.2.2.1 none "tok" none (by decide) (by decide)
    rw [h]
    decide
  · exact (header_composition.2.2.2.1 "Bearer abc").1 (by decide)
  · exact header_composition.2.2.2.2 none (some (.harr [("X", some "1")])) none (Or.inl rfl)
      (by decide) (by decide)

/-- C7.  Delegation frame: when the composed header set is empty the
executor receives the caller's option bag untouched (`fn(url)` when no
options were passed at all); when it is non-empty the executor receives
the bag with only the `headers` field replaced by the composed object and
every other field unchanged. -/
theorem wrap_delegation :
    (∀ (d : Option HeaderInput) (tok : Option String) (o : CallOptions),
       buildHeadersF d tok o.headers = none → wrapCall d tok (some o) = .withOptions o) ∧
    (∀ (d : Option HeaderInput) (tok : Option String),
       buildHeadersF d tok none = none → wrapCall d tok none = .urlOnly) ∧
    (∀ (d : Option HeaderInput) (tok : Option String) (opts : Option CallOptions)
       (hs : HeadersM),
       buildHeadersF d tok (opts.bind (fun o => o.headers)) = some hs →
       wrapCall d tok opts =
         .withOptions ⟨some (headersAsInput hs), (opts.map (fun o => o.rest)).getD []⟩) := by
  refine ⟨?_, ?_, ?_⟩
  · intro d tok o h
    unfold wrapCall
    rw [show ((some o).bind (fun o => o.headers)) = o.headers from rfl, h]
  · intro d tok h
    unfold wrapCall
    rw [show ((none : Option CallOptions).bind (fun o => o.headers)) = none from rfl, h]
  · intro d tok opts hs h
    unfold wrapCall
    rw [h]

/-- Witness for C7: no defaults, no token, no per-call headers — the
delegated call receives no headers field at all; with per-call headers
whose values are all nullish the original bag passes through untouched;
with a real header the bag keeps its other fields and only `headers` is
replaced. -/
theorem wrap_delegation_witness :
    wrapCall none none none = .urlOnly ∧
    wrapCall none none (some ⟨some (.hmap [("X", none)]), [("body", "b")]⟩) =
      .withOptions ⟨some (.hmap [("X", none)]), [("body", "b")]⟩ ∧
    wrapCall none (some "tok") (some ⟨none, [("body", "b")]⟩) =
      .withOptions ⟨some (headersAsInput [("authorization", "Bearer tok")]),
        [("body", "b")]⟩ := by
  refine ⟨?_, ?_, ?_⟩
  · exact wrap_delegation.2.1 none none (by decide)
  · exact wrap_delegation.1 none none ⟨some (.hmap [("X", none)]), [("body", "b")]⟩ (by decide)
  · exact wrap_delegation.2.2 none (some "tok") (some ⟨none, [("body", "b")]⟩)
      [("authorization", "Bearer tok")] (by decide)

/-! ## Configuration resolution across calls (provider lifetime) -/

/-- `options.scope`: a string or an array of strings. -/
inductive ScopeVal where
  | str (s : String)
  | arr (l : List String)
  deriving DecidableEq, Repr

/-- `Array.isArray(options.scope) ? options.scope.join(' ') : options.scope`. -/
def joinScope : Option ScopeVal → Option String
  | some (.str s) => some s
  | some (.arr l) => some (String.intercalate " " l)
  | none => none

/-- The options object over the provider's lifetime.  Since a JavaScript
property may be backed by a getter and a factory may return different
values across invocations, each configuration field is a sequence indexed
by its read/invocation number: `fallbackToken k` is what resolving the
fallback yields on call `k`, and `audienceReads r` is the value of the
`audience` property at its `r`-th read, `r = 0` being provider
construction time. -/
structure ProviderOptions where
  fallbackToken : Nat → Option String
  clientId : Nat → Option String
  clientSecret : Nat → Option String
  audienceReads : Nat → Option String
  bufferReads : Nat → Option Int
  scopeVal : Option ScopeVal
  envToken : Option String
  envClientId : Option String
  envClientSecret : Option String
  fetchAvailable : Bool

/-- The configuration call `k` actually runs with, per the source:
`clientId`, `clientSecret` and `fallbackToken` are value-or-factory
fields resolved anew inside every call (`resolveValue(options.x)`), while
`audience`, `scope`, `expirationBufferMs` and the fetch implementation
are read once, at provider construction (`const audience =
options.audience ?? PUBLIC_API_AUDIENCE` etc.) — read index 0 for every
call. -/
def providerCallConfig (o : ProviderOptions) (k : Nat) : CallConfig :=
  { fetchAvailable := o.fetchAvailable,
    fallbackFactory := o.fallbackToken k, envToken := o.envToken,
    clientIdFactory := o.clientId k, envClientId := o.envClientId,
    clientSecretFactory := o.clientSecret k, envClientSecret := o.envClientSecret,
    audience := (o.audienceReads 0).getD PUBLIC_API_AUDIENCE,
    scope := joinScope o.scopeVal,
    bufferMs := (o.bufferReads 0).getD TOKEN_EXPIRATION_BUFFER_MS }

/-- The configuration call `k` would run with per the claim's words —
"configuration values are re-resolved on every acquisition attempt, never
cached beyond the single call" for all listed fields, so `audience` and
the buffer would be re-read (index `k`) on attempt `k`.  Stated for
comparison with `providerCallConfig`, which follows the source. -/
def claimCallConfig (o : ProviderOptions) (k : Nat) : CallConfig :=
  { fetchAvailable := o.fetchAvailable,
    fallbackFactory := o.fallbackToken k, envToken := o.envToken,
    clientIdFactory := o.clientId k, envClientId := o.envClientId,
    clientSecretFactory := o.clientSecret k, envClientSecret := o.envClientSecret,
    audience := (o.audienceReads k).getD PUBLIC_API_AUDIENCE,
    scope := joinScope o.scopeVal,
    bufferMs := (o.bufferReads k).getD TOKEN_EXPIRATION_BUFFER_MS }

/-- An options object whose `audience` property reads `"A"` at
construction and `"B"` on any later read. -/
def o9 : ProviderOptions :=
  { fallbackToken := fun _ => none, clientId := fun _ => some "id",
    clientSecret := fun _ => some "sec",
    audienceReads := fun r => if r = 0 then some "A" else some "B",
    bufferReads := fun _ => some 60000, scopeVal := none,
    envToken := none, envClientId := none, envClientSecret := none,
    fetchAvailable := true }

/-- Counterexample to C9 as stated: on acquisition attempt 1 the code
does not re-resolve the `audience` (or buffer) configuration — it uses
the value captured at construction (read 0, `"A"`), so the call differs
from the claim's per-attempt re-resolution (read 1, `"B"`): the issued
request payloads disagree. -/
theorem config_reresolution_counterexample :
    getTokenOnce (providerCallConfig o9 1) (.success (some "T") (some 3600)) none 0 ≠
      getTokenOnce (claimCallConfig o9 1) (.success (some "T") (some 3600)) none 0 := by
  decide

/-- C9 (amended).  Configuration re-resolution: on every acquisition
attempt the value-or-factory fields `clientId`, `clientSecret` and
`fallbackToken` are re-resolved — the attempt uses exactly that attempt's
factory results, never a value cached from an earlier call — whereas
`audience`, `scope`, `expirationBufferMs` and the transport are plain
values resolved once at provider construction and reused by every
attempt. -/
theorem config_reresolution (o : ProviderOptions) (k : Nat) (net : NetResult)
    (cache : Option Credential) (now : Int) :
    (∀ s, o.fallbackToken k = some s → s ≠ "" →
       getTokenOnce (providerCallConfig o k) net cache now = ⟨.ok s, cache, 0, none⟩) ∧
    (providerCallConfig o k).fallbackFactory = o.fallbackToken k ∧
    (providerCallConfig o k).clientIdFactory = o.clientId k ∧
    (providerCallConfig o k).clientSecretFactory = o.clientSecret k ∧
    (providerCallConfig o k).audience = (o.audienceReads 0).getD PUBLIC_API_AUDIENCE ∧
    (providerCallConfig o k).bufferMs = (o.bufferReads 0).getD TOKEN_EXPIRATION_BUFFER_MS ∧
    (∀ cid cs, truthyS (jsOrElse (o.fallbackToken k) o.envToken) = false →
       cacheValid cache now = false → o.fetchAvailable = true →
       o.clientId k = some cid → cid ≠ "" → o.clientSecret k = some cs → cs ≠ "" →
       (getTokenOnce (providerCallConfig o k) net cache now).payload =
         some ⟨cid, cs, (o.audienceReads 0).getD PUBLIC_API_AUDIENCE,
           "client_credentials", scopeField (joinScope o.scopeVal)⟩) := by
  refine ⟨?_, rfl, rfl, rfl, rfl, rfl, ?_⟩
  · intro s hs hne
    have hres : resolvedFallback (providerCallConfig o k) = some s := by
      show jsOrElse (o.fallbackToken k) o.envToken = some s
      rw [hs]
      rfl
    unfold getTokenOnce
    rw [hres]
    simp [hne]
  · intro cid cs hfb hcv hfetch hcid hcidne hcs hcsne
    have hid : resolvedClientId (providerCallConfig o k) = some cid := by
      show jsOrElse (o.clientId k) o.envClientId = some cid
      rw [hcid]
      rfl
    have hsec : resolvedClientSecret (providerCallConfig o k) = some cs := by
      show jsOrElse (o.clientSecret k) o.envClientSecret = some cs
      rw [hcs]
      rfl
    rw [getTokenOnce_no_fallback net cache now
          (show truthyS (resolvedFallback (providerCallConfig o k)) = false from hfb),
        cacheOrRefresh_miss _ net hcv,
        requestTokenF_run net cache now hfetch hid hcidne hsec hcsne]
    rfl

/-- Witness for the amended C9: with a fallback factory returning a
different token on each invocation, attempt 2 resolves to the attempt-2
value; with per-attempt credentials, the attempt-2 payload carries the
attempt-2 credentials but the construction-time audience. -/
theorem config_reresolution_witness :
    getTokenOnce (providerCallConfig
        ⟨fun k => if k = 2 then some "F2" else some "F1", fun _ => some "id",
         fun _ => some "sec", fun r => if r = 0 then some "A" else some "B",
         fun _ => some 60000, none, none, none, none, true⟩ 2)
      (.success (some "T") (some 3600)) none 0 = ⟨.ok "F2", none, 0, none⟩ ∧
    (getTokenOnce (providerCallConfig
        ⟨fun _ => none, fun k => if k = 2 then some "id2" else some "id1",
         fun _ => some "sec", fun r => if r = 0 then some "A" else some "B",
         fun _ => some 60000, none, none, none, none, true⟩ 2)
      (.success (some "T") (some 3600)) none 0).payload =
      some ⟨"id2", "sec", "A", "client_credentials", none⟩ := by
  constructor
  · exact (config_reresolution _ 2 (.success (some "T") (some 3600)) none 0).1 "F2"
      (by decide) (by decide)
  · have h := (config_reresolution
      ⟨fun _ => none, fun k => if k = 2 then some "id2" else some "id1",
       fun _ => some "sec", fun r => if r = 0 then some "A" else some "B",
       fun _ => some 60000, none, none, none, none, true⟩ 2
      (.success (some "T") (some 3600)) none 0).2.2.2.2.2.2 "id2" "sec"
      (by decide) (by decide) rfl (by decide) (by decide) (by decide) (by decide)
    rw [h]
    rfl

end Alvys
